import Mathlib

/-!
Shallow embedding of `asm-processor.py`: a 32-bit big-endian MIPS ELF object
reader/writer together with the splicing algorithm of `fixup_objfile`, and the
C-source scanner `parse_source`.

Modelling conventions:
* Python `bytes` values are `List Nat` with every element `< 256`; Python
  strings that denote symbol/section names travel as their UTF-8 byte lists, so
  Python's `decode('utf-8')`/`encode` round-trip is the identity here.
* Fallible Python code (assertions, IndexError, struct.error, AttributeError)
  is modelled with `Option`: `none` means the run raises.
* `struct.pack`/`unpack` are big-endian fixed-width integer codecs; `unpack`
  demands an exact-length buffer, `pack` demands in-range values (Python raises
  `struct.error` otherwise; the writer's range guard models exactly that).
-/

namespace AsmProc

/-! ### Byte-level codec (asm-processor.py uses struct.pack/unpack, '>') -/

/-- Big-endian value of a byte list (`struct.unpack` of one field). -/
def beVal (l : List Nat) : Nat := l.foldl (fun a b => a * 256 + b) 0

/-- Big-endian `w`-byte encoding of `v`, truncated mod `256^w`
(`struct.pack` additionally rejects out-of-range values; the writer's
range guard `fitsU` models that rejection). -/
def beBytes : Nat → Nat → List Nat
  | 0, _ => []
  | n + 1, v => beBytes n (v / 256) ++ [v % 256]

/-- Read one big-endian `w`-byte field and return the rest of the buffer. -/
def takeU (w : Nat) (l : List Nat) : Nat × List Nat :=
  (beVal (l.take w), l.drop w)

/-- Python slice `l[off : off + len]` (clamping, never failing). -/
def sliceL (l : List Nat) (off len : Nat) : List Nat :=
  (l.drop off).take len

/-- `struct.pack` range check for a `w`-byte field. -/
def fitsU (w v : Nat) : Bool := v < 256 ^ w

theorem beBytes_length (n v : Nat) : (beBytes n v).length = n := by
  induction n generalizing v with
  | zero => rfl
  | succ n ih => simp [beBytes, ih]

theorem beBytes_lt (n v : Nat) : ∀ b ∈ beBytes n v, b < 256 := by
  induction n generalizing v with
  | zero => simp [beBytes]
  | succ n ih =>
    intro b hb
    simp only [beBytes, List.mem_append, List.mem_singleton] at hb
    rcases hb with h | h
    · exact ih _ _ h
    · simpa [h] using Nat.mod_lt v (by norm_num)

theorem beVal_foldl (l : List Nat) (acc : Nat) :
    l.foldl (fun a b => a * 256 + b) acc
      = acc * 256 ^ l.length + l.foldl (fun a b => a * 256 + b) 0 := by
  induction l generalizing acc with
  | nil => simp
  | cons x xs ih =>
    simp only [List.foldl_cons, List.length_cons]
    rw [ih (acc * 256 + x), ih (0 * 256 + x)]
    ring

theorem beVal_append (a b : List Nat) :
    beVal (a ++ b) = beVal a * 256 ^ b.length + beVal b := by
  unfold beVal
  rw [List.foldl_append, beVal_foldl]

theorem beVal_beBytes (n v : Nat) : beVal (beBytes n v) = v % 256 ^ n := by
  induction n generalizing v with
  | zero => simp [beBytes, beVal, Nat.mod_one]
  | succ n ih =>
    rw [beBytes, beVal_append]
    simp only [List.length_singleton, pow_one]
    have hx : beVal [v % 256] = v % 256 := by simp [beVal]
    rw [ih, hx]
    conv_rhs => rw [pow_succ, mul_comm, Nat.mod_mul]
    ring

theorem beVal_beBytes_of_lt {n v : Nat} (h : v < 256 ^ n) :
    beVal (beBytes n v) = v := by
  rw [beVal_beBytes, Nat.mod_eq_of_lt h]

theorem takeU_beBytes (n v : Nat) (rest : List Nat) :
    takeU n (beBytes n v ++ rest) = (v % 256 ^ n, rest) := by
  unfold takeU
  have hlen : (beBytes n v).length = n := beBytes_length n v
  rw [List.take_left' hlen, List.drop_left' hlen, beVal_beBytes]

theorem takeU_beBytes_of_lt {n v : Nat} (h : v < 256 ^ n) (rest : List Nat) :
    takeU n (beBytes n v ++ rest) = (v, rest) := by
  rw [takeU_beBytes, Nat.mod_eq_of_lt h]

theorem takeU_beBytes_nil (n v : Nat) :
    takeU n (beBytes n v) = (v % 256 ^ n, []) := by
  simpa using takeU_beBytes n v []

/-! ### ELF constants (verbatim from asm-processor.py) -/

def SHN_UNDEF : Nat := 0
def SHN_XINDEX : Nat := 0xffff
def STT_FUNC : Nat := 2
def SHT_NULL : Nat := 0
def SHT_PROGBITS : Nat := 1
def SHT_SYMTAB : Nat := 2
def SHT_STRTAB : Nat := 3
def SHT_RELA : Nat := 4
def SHT_NOBITS : Nat := 8
def SHT_REL : Nat := 9
def SHT_MIPS_REGINFO : Nat := 0x70000006
def SHF_LINK_ORDER : Nat := 0x80

/-- ASCII byte list of a name literal (UTF-8 of an ASCII string). -/
def strBytes (s : String) : List Nat := s.toList.map Char.toNat

/-! ### String tables (`Section.lookup_str` / `Section.add_str`)

`lookup_str` scans `self.data` for the first NUL at or after `index`
(`self.data.find(b'\0', index)`), asserts it exists, and decodes the bytes
before it; `add_str` returns the current length and appends `string + b'\0'`.
Both assert `self.sh_type == SHT_STRTAB`; the section-level wrappers below
carry that guard. -/

/-- Index of the first `0` byte at position `≥ i`, if any (`bytes.find(b'\0', i)`,
with `none` for Python's `-1`). -/
def findNul (data : List Nat) (i : Nat) : Option Nat :=
  match (data.drop i).findIdx? (fun b => b = 0) with
  | some k => some (i + k)
  | none => none

/-- `Section.lookup_str` on the raw payload: `data[index:to]` for the first NUL
at `to ≥ index` (UTF-8 decoding is the identity on byte lists). -/
def lookupStrData (data : List Nat) (index : Nat) : Option (List Nat) :=
  (findNul data index).map (fun j => sliceL data index (j - index))

theorem beVal_lt (l : List Nat) (h : ∀ b ∈ l, b < 256) :
    beVal l < 256 ^ l.length := by
  induction l using List.reverseRecOn with
  | nil => simp [beVal]
  | append_singleton xs x ih =>
    rw [beVal_append]
    have hx : x < 256 := h x (by simp)
    have hxs : beVal xs < 256 ^ xs.length := ih (fun b hb => h b (by simp [hb]))
    have hb : beVal [x] = x := by simp [beVal]
    calc beVal xs * 256 ^ [x].length + beVal [x]
        = beVal xs * 256 + x := by simp [hb]
      _ < (beVal xs + 1) * 256 := by nlinarith
      _ ≤ 256 ^ xs.length * 256 := by
          have : beVal xs + 1 ≤ 256 ^ xs.length := hxs
          nlinarith
      _ = 256 ^ (xs ++ [x]).length := by simp [pow_succ]

/-! ### Symbols (`class Symbol`) -/

structure Symbol where
  st_name : Nat
  st_value : Nat
  st_size : Nat
  bind : Nat
  type : Nat
  st_other : Nat
  st_shndx : Nat
  name : List Nat
deriving DecidableEq, Repr

/-- `Symbol.__init__(data, strtab)`: unpack `'>IIIBBH'` from a 16-byte record,
reject `SHN_XINDEX`, split `st_info` into `(bind, type)`, resolve `name`
through the string table (whose `lookup_str` asserts it is a `SHT_STRTAB`). -/
def Symbol.parse (data : List Nat) (strtabType : Nat) (strtabData : List Nat) :
    Option Symbol :=
  if data.length = 16 then
    let (st_name, r1) := takeU 4 data
    let (st_value, r2) := takeU 4 r1
    let (st_size, r3) := takeU 4 r2
    let (st_info, r4) := takeU 1 r3
    let (st_other, r5) := takeU 1 r4
    let (st_shndx, _) := takeU 2 r5
    if st_shndx = SHN_XINDEX then none
    else if strtabType = SHT_STRTAB then
      (lookupStrData strtabData st_name).map (fun name =>
        { st_name, st_value, st_size, bind := st_info / 16, type := st_info % 16,
          st_other, st_shndx, name })
    else none
  else none

/-- `Symbol.to_bin`: repack `st_info = (bind << 4) | type` and `'>IIIBBH'`. -/
def Symbol.to_bin (s : Symbol) : List Nat :=
  beBytes 4 s.st_name ++ beBytes 4 s.st_value ++ beBytes 4 s.st_size ++
  beBytes 1 ((s.bind <<< 4) ||| s.type) ++ beBytes 1 s.st_other ++
  beBytes 2 s.st_shndx

/-! ### Relocations (`class Relocation`) -/

structure Relocation where
  sh_type : Nat
  r_offset : Nat
  sym_index : Nat
  rel_type : Nat
  r_addend : Option Nat
deriving DecidableEq, Repr

/-- `Relocation.__init__(data, sh_type)`: REL unpacks `'>II'` (8 bytes), RELA
`'>III'` (12 bytes); `sym_index = r_info >> 8`, `rel_type = r_info & 0xff`. -/
def Relocation.parse (data : List Nat) (sh_type : Nat) : Option Relocation :=
  if sh_type = SHT_REL then
    if data.length = 8 then
      let (r_offset, r1) := takeU 4 data
      let (r_info, _) := takeU 4 r1
      some { sh_type, r_offset, sym_index := r_info / 256,
             rel_type := r_info % 256, r_addend := none }
    else none
  else
    if data.length = 12 then
      let (r_offset, r1) := takeU 4 data
      let (r_info, r2) := takeU 4 r1
      let (r_addend, _) := takeU 4 r2
      some { sh_type, r_offset, sym_index := r_info / 256,
             rel_type := r_info % 256, r_addend := some r_addend }
    else none

/-- `Relocation.to_bin`: recompute `r_info = (sym_index << 8) | rel_type`,
pack `'>II'` for REL, `'>III'` for RELA. -/
def Relocation.to_bin (r : Relocation) : List Nat :=
  if r.sh_type = SHT_REL then
    beBytes 4 r.r_offset ++ beBytes 4 ((r.sym_index <<< 8) ||| r.rel_type)
  else
    beBytes 4 r.r_offset ++ beBytes 4 ((r.sym_index <<< 8) ||| r.rel_type) ++
    beBytes 4 (r.r_addend.getD 0)

/-! ### Sections (`class Section`) -/

structure Section where
  sh_name : Nat
  sh_type : Nat
  sh_flags : Nat
  sh_addr : Nat
  sh_offset : Nat
  sh_size : Nat
  sh_link : Nat
  sh_info : Nat
  sh_addralign : Nat
  sh_entsize : Nat
  data : List Nat
  index : Nat
  name : List Nat := []
  symbol_entries : List Symbol := []
  relocations : List Relocation := []
  relocated_by : List Nat := []
deriving DecidableEq, Repr

/-- `Section.__init__(header, data, index)`: unpack ten `'>I'` words from the
40-byte header, reject `SHF_LINK_ORDER`, require `sh_size % sh_entsize == 0`
when `sh_entsize != 0`, slice the payload `data[sh_offset : sh_offset+sh_size]`
(empty for `SHT_NOBITS`, where the source stores `''`). -/
def Section.parse (header : List Nat) (data : List Nat) (index : Nat) :
    Option Section :=
  if header.length = 40 then
    let (sh_name, r1) := takeU 4 header
    let (sh_type, r2) := takeU 4 r1
    let (sh_flags, r3) := takeU 4 r2
    let (sh_addr, r4) := takeU 4 r3
    let (sh_offset, r5) := takeU 4 r4
    let (sh_size, r6) := takeU 4 r5
    let (sh_link, r7) := takeU 4 r6
    let (sh_info, r8) := takeU 4 r7
    let (sh_addralign, r9) := takeU 4 r8
    let (sh_entsize, _) := takeU 4 r9
    if sh_flags &&& SHF_LINK_ORDER ≠ 0 then none
    else if sh_entsize ≠ 0 ∧ sh_size % sh_entsize ≠ 0 then none
    else
      some { sh_name, sh_type, sh_flags, sh_addr, sh_offset, sh_size, sh_link,
             sh_info, sh_addralign, sh_entsize,
             data := if sh_type = SHT_NOBITS then [] else sliceL data sh_offset sh_size,
             index }
  else none

/-- `Section.is_rel`. -/
def Section.isRel (s : Section) : Bool :=
  s.sh_type == SHT_REL || s.sh_type == SHT_RELA

/-- `Section.header_to_bin`: first set `sh_size = len(data)` unless
`SHT_NOBITS`, then pack the ten words. -/
def Section.binSize (s : Section) : Nat :=
  if s.sh_type = SHT_NOBITS then s.sh_size else s.data.length

def Section.header_to_bin (s : Section) : List Nat :=
  beBytes 4 s.sh_name ++ beBytes 4 s.sh_type ++ beBytes 4 s.sh_flags ++
  beBytes 4 s.sh_addr ++ beBytes 4 s.sh_offset ++ beBytes 4 s.binSize ++
  beBytes 4 s.sh_link ++ beBytes 4 s.sh_info ++ beBytes 4 s.sh_addralign ++
  beBytes 4 s.sh_entsize

/-- Start offsets of `range(0, total, step)` (the record-chunking loops of
`init_symbols`/`init_relocs`); Python raises for `step = 0`, which callers
guard. -/
def strideIdx (total step : Nat) : List Nat :=
  (List.range ((total + step - 1) / step)).map (fun k => k * step)

/-- `Section.find_symbol(name)`: linear scan of the symbol entries, first
match wins, returning `(st_shndx, st_value)`; asserts the section is the
symtab. -/
def Section.find_symbol (s : Section) (nm : List Nat) : Option (Nat × Nat) :=
  if s.sh_type = SHT_SYMTAB then
    (s.symbol_entries.find? (fun e => e.name = nm)).map
      (fun e => (e.st_shndx, e.st_value))
  else none

/-- `init_symbols` body: `sh_entsize = 16` is asserted, the string table is
`sections[sh_link]`, and the payload is cut into 16-byte records. -/
def symsOf (secs : List Section) (s : Section) : Option (List Symbol) :=
  if s.sh_entsize = 16 then
    match secs[s.sh_link]? with
    | none => none
    | some strtab =>
        (strideIdx s.sh_size 16).mapM
          (fun i => Symbol.parse (sliceL s.data i 16) strtab.sh_type strtab.data)
  else none

/-- `init_relocs` body: the payload is cut into `sh_entsize`-byte records
(`range` with step `sh_entsize` raises for a zero step). -/
def relsOf (s : Section) : Option (List Relocation) :=
  if s.sh_entsize = 0 then none
  else
    (strideIdx s.sh_size s.sh_entsize).mapM
      (fun i => Relocation.parse (sliceL s.data i s.sh_entsize) s.sh_type)

/-- `Section.late_init(sections)`: parse symbols for a symtab (resolving the
strtab through `sh_link`), parse relocations for a REL/RELA section (resolving
`rel_target = sections[sh_info]`, which must exist). The `relocated_by`
back-links are filled in by a separate pass (`relocatedByList`). -/
def Section.lateInit (secs : List Section) (s : Section) : Option Section :=
  if s.sh_type = SHT_SYMTAB then
    (symsOf secs s).map (fun entries => { s with symbol_entries := entries })
  else if s.isRel then
    match secs[s.sh_info]? with
    | none => none
    | some _ => (relsOf s).map (fun entries => { s with relocations := entries })
  else some s

/-- The inverse `sh_info` links: indices (in section order, the order the
`late_init` loop pushes them) of the REL/RELA sections targeting section
`idx`. -/
def relocatedByList (secs : List Section) (idx : Nat) : List Nat :=
  (secs.filter (fun r => r.isRel && r.sh_info == idx)).map (fun r => r.index)

/-! ### ELF header (`class ElfHeader`) -/

structure ElfHeader where
  e_ident : List Nat
  e_type : Nat
  e_machine : Nat
  e_version : Nat
  e_entry : Nat
  e_phoff : Nat
  e_shoff : Nat
  e_flags : Nat
  e_ehsize : Nat
  e_phentsize : Nat
  e_phnum : Nat
  e_shentsize : Nat
  e_shstrndx : Nat
  e_shnum : Nat
deriving DecidableEq, Repr

/-- `ElfHeader.__init__(data)` on `data[0:52]`: `e_ident = data[:16]`, unpack
`'>HHIIIIIHHHHHH'` from the remaining 36 bytes (so the buffer must be exactly
52 bytes), then assert 32-bit class, big-endian data, `ET_REL`, `EM_MIPS`, no
program header, a section header table, and a section name table. -/
def ElfHeader.parse (data52 : List Nat) : Option ElfHeader :=
  if data52.length = 52 then
    let e_ident := data52.take 16
    let rest := data52.drop 16
    let (e_type, r1) := takeU 2 rest
    let (e_machine, r2) := takeU 2 r1
    let (e_version, r3) := takeU 4 r2
    let (e_entry, r4) := takeU 4 r3
    let (e_phoff, r5) := takeU 4 r4
    let (e_shoff, r6) := takeU 4 r5
    let (e_flags, r7) := takeU 4 r6
    let (e_ehsize, r8) := takeU 2 r7
    let (e_phentsize, r9) := takeU 2 r8
    let (e_phnum, r10) := takeU 2 r9
    let (e_shentsize, r11) := takeU 2 r10
    let (e_shnum, r12) := takeU 2 r11
    let (e_shstrndx, _) := takeU 2 r12
    if e_ident.getD 4 0 = 1 ∧ e_ident.getD 5 0 = 2 ∧ e_type = 1 ∧ e_machine = 8 ∧
       e_phoff = 0 ∧ e_shoff ≠ 0 ∧ e_shstrndx ≠ SHN_UNDEF then
      some { e_ident, e_type, e_machine, e_version, e_entry, e_phoff, e_shoff,
             e_flags, e_ehsize, e_phentsize, e_phnum, e_shentsize, e_shstrndx,
             e_shnum }
    else none
  else none

/-- `ElfHeader.to_bin`: `e_ident` verbatim, then pack `'>HHIIIIIHHHHHH'`. -/
def ElfHeader.to_bin (h : ElfHeader) : List Nat :=
  h.e_ident ++ beBytes 2 h.e_type ++ beBytes 2 h.e_machine ++
  beBytes 4 h.e_version ++ beBytes 4 h.e_entry ++ beBytes 4 h.e_phoff ++
  beBytes 4 h.e_shoff ++ beBytes 4 h.e_flags ++ beBytes 2 h.e_ehsize ++
  beBytes 2 h.e_phentsize ++ beBytes 2 h.e_phnum ++ beBytes 2 h.e_shentsize ++
  beBytes 2 h.e_shnum ++ beBytes 2 h.e_shstrndx

/-! ### ELF files (`class ElfFile`) -/

structure ElfFile where
  elf_header : ElfHeader
  sections : List Section
  symtabIdx : Nat
deriving DecidableEq, Repr

def elfMagic : List Nat := [0x7f, 0x45, 0x4c, 0x46]

/-- `ElfFile.__init__`, phase 1: the raw section list. The null section is
read at `e_shoff`; the section count is `e_shnum or null_section.sh_size`;
sections `1 .. num-1` are read at `e_shoff + i * e_shentsize`. -/
def parseRawSections (data : List Nat) (hdr : ElfHeader) : Option (List Section) :=
  match Section.parse (sliceL data hdr.e_shoff hdr.e_shentsize) data 0 with
  | none => none
  | some nullSec =>
    let num := if hdr.e_shnum ≠ 0 then hdr.e_shnum else nullSec.sh_size
    ((List.range' 1 (num - 1)).mapM
      (fun i => Section.parse
        (sliceL data (hdr.e_shoff + i * hdr.e_shentsize) hdr.e_shentsize)
        data i)).map (fun rest => nullSec :: rest)

/-- `ElfFile.__init__`: magic check, header parse, raw sections, the unique
symtab, then for every section resolve `name = shstr.lookup_str(sh_name)`
(which asserts `shstr` is a string table) and run `late_init`; finally record
the `relocated_by` back-links that `late_init` pushes. -/
def ElfFile.parse (data : List Nat) : Option ElfFile :=
  if data.take 4 = elfMagic then
    match ElfHeader.parse (data.take 52) with
    | none => none
    | some hdr =>
      match parseRawSections data hdr with
      | none => none
      | some secs0 =>
        if (secs0.filter (fun s => s.sh_type == SHT_SYMTAB)).length = 1 then
          match secs0[hdr.e_shstrndx]? with
          | none => none
          | some shstr =>
            match secs0.mapM (fun s =>
                if shstr.sh_type = SHT_STRTAB then
                  match lookupStrData shstr.data s.sh_name with
                  | none => none
                  | some nm => Section.lateInit secs0 { s with name := nm }
                else none) with
            | none => none
            | some secs1 =>
              some { elf_header := hdr,
                     sections := secs1.map (fun s =>
                       { s with relocated_by := relocatedByList secs1 s.index }),
                     symtabIdx := secs0.findIdx (fun s => s.sh_type == SHT_SYMTAB) }
        else none
  else none

/-- `ElfFile.find_section(name)`: first section with the given resolved name. -/
def ElfFile.findSection (E : ElfFile) (nm : List Nat) : Option Section :=
  E.sections.find? (fun s => s.name = nm)

/-! ### Writing (`ElfFile.write`)

The writer emits the header, then each non-NULL, non-NOBITS section's payload
padded to `sh_addralign` (recording the new `sh_offset`), then pads to 4 and
emits the section header table, and finally rewrites the header with the
updated `e_shoff`/`e_shnum`.  It is modelled as a pure function from the model
to the final byte string; every `struct.pack` range check is collected in one
guard (Python raises `struct.error` at the first offending field). -/

def padLen (idx align : Nat) : Nat :=
  if align ≠ 0 ∧ idx % align ≠ 0 then align - idx % align else 0

def skipPayload (s : Section) : Bool :=
  s.sh_type == SHT_NOBITS || s.sh_type == SHT_NULL

/-- The payload-emission loop: returns the sections with updated `sh_offset`,
the emitted bytes (starting from cursor `idx`), and the final cursor. -/
def writeBody : List Section → Nat → List Section × List Nat × Nat
  | [], idx => ([], [], idx)
  | s :: rest, idx =>
    if skipPayload s then
      let r := writeBody rest idx
      (s :: r.1, r.2)
    else
      let p := padLen idx s.sh_addralign
      let off := idx + p
      let r := writeBody rest (off + s.data.length)
      ({ s with sh_offset := off } :: r.1,
       List.replicate p 0 ++ s.data ++ r.2.1, r.2.2)

/-- Range guard for `ElfHeader.to_bin` (`e_ident` is written verbatim as
bytes). -/
def ElfHeader.binOK (h : ElfHeader) : Bool :=
  fitsU 2 h.e_type && fitsU 2 h.e_machine && fitsU 4 h.e_version &&
  fitsU 4 h.e_entry && fitsU 4 h.e_phoff && fitsU 4 h.e_shoff &&
  fitsU 4 h.e_flags && fitsU 2 h.e_ehsize && fitsU 2 h.e_phentsize &&
  fitsU 2 h.e_phnum && fitsU 2 h.e_shentsize && fitsU 2 h.e_shnum &&
  fitsU 2 h.e_shstrndx

/-- Range guard for `Section.header_to_bin`. -/
def Section.hdrOK (s : Section) : Bool :=
  fitsU 4 s.sh_name && fitsU 4 s.sh_type && fitsU 4 s.sh_flags &&
  fitsU 4 s.sh_addr && fitsU 4 s.sh_offset && fitsU 4 s.binSize &&
  fitsU 4 s.sh_link && fitsU 4 s.sh_info && fitsU 4 s.sh_addralign &&
  fitsU 4 s.sh_entsize

def ElfFile.write (E : ElfFile) : Option (List Nat) :=
  let hdr0 := { E.elf_header with e_shnum := E.sections.length }
  let r := writeBody E.sections hdr0.to_bin.length
  let p4 := padLen r.2.2 4
  let hdr1 := { hdr0 with e_shoff := r.2.2 + p4 }
  if hdr1.binOK ∧ r.1.all Section.hdrOK then
    some (hdr1.to_bin ++ r.2.1 ++ List.replicate p4 0 ++
          (r.1.map Section.header_to_bin).flatten)
  else none

/-- The section-header emission loop of `write` (`for s in self.sections:
write_out(s.header_to_bin())`): each `struct.pack` either yields its 40 bytes
or raises, so the bytes written are those of the headers before the first
failing pack, and the second component records whether the loop completed. -/
def headersGo : List Section → List Nat × Bool
  | [] => ([], true)
  | s :: rest =>
    if s.hdrOK then
      let r := headersGo rest
      (s.header_to_bin ++ r.1, r.2)
    else ([], false)

/-- `ElfFile.write(filename)` as it acts on the output file: `open(filename,
'wb')` truncates the file to empty *before* anything is serialized, then the
chunks are written in order (initial header with the stale `e_shoff`, padded
payloads, section headers one at a time, finally the header re-written at
offset 0 with the new `e_shoff`).  A `struct.error` raised by a pack aborts
the run but leaves every previously written chunk on disk.  The result is the
final content of the output file and whether the write completed. -/
def ElfFile.writeFs (E : ElfFile) : List Nat × Bool :=
  let hdr0 := { E.elf_header with e_shnum := E.sections.length }
  if hdr0.binOK then
    let r := writeBody E.sections hdr0.to_bin.length
    let p4 := padLen r.2.2 4
    let h := headersGo r.1
    if h.2 then
      if fitsU 4 (r.2.2 + p4) then
        ({ hdr0 with e_shoff := r.2.2 + p4 }.to_bin ++ r.2.1 ++
          List.replicate p4 0 ++ h.1, true)
      else (hdr0.to_bin ++ r.2.1 ++ List.replicate p4 0 ++ h.1, false)
    else (hdr0.to_bin ++ r.2.1 ++ List.replicate p4 0 ++ h.1, false)
  else ([], false)

/-! ### `fixup_objfile` step 1-2: locate placeholders, build assembly

`functions` is the scanner's output: `(fn_name, temp_fn_name, body, num_instr)`
tuples.  For each one the placeholder symbol is looked up in the target's
symtab, its `st_value` must be word-aligned and its word offset `loc`
non-decreasing; the generated assembly pads with `loc - prev_loc` nops and
then emits the body, and `(loc, num_instr)` is recorded in the copy plan. -/

structure FuncDesc where
  fn_name : List Nat
  temp_fn_name : List Nat
  body : List (List Nat)
  num_instr : Nat
deriving DecidableEq, Repr

def nopLine : List Nat := strBytes "nop"

/-- The `for (fn_name, temp_fn_name, body, num_instr) in functions` loop of
`fixup_objfile` (lines 391-406), returning
`(asm, to_copy, temp_names, fn_names)`. -/
def genAsmGo (symtab : Section) : List FuncDesc → Nat →
    Option (List (List Nat) × List (Nat × Nat) × List (List Nat) × List (List Nat))
  | [], _ => some ([], [], [], [])
  | f :: fs, prev_loc =>
    match symtab.find_symbol f.temp_fn_name with
    | none => none
    | some loc0 =>
      if loc0.2 % 4 = 0 then
        let loc := loc0.2 / 4
        if prev_loc ≤ loc then
          match genAsmGo symtab fs (loc + f.num_instr) with
          | none => none
          | some r =>
            some (List.replicate (loc - prev_loc) nopLine ++ f.body ++ r.1,
                  (loc, f.num_instr) :: r.2.1,
                  f.temp_fn_name :: r.2.2.1,
                  f.fn_name :: r.2.2.2)
        else none
      else none

def genAsm (E : ElfFile) (functions : List FuncDesc) :
    Option (List (List Nat) × List (Nat × Nat) × List (List Nat) × List (List Nat)) :=
  match E.sections[E.symtabIdx]? with
  | none => none
  | some symtab => genAsmGo symtab functions 0

/-- The lines written to the temporary `.s` file: the optional prelude, then
`.section .text, "ax"` followed by a blank line, then the generated assembly. -/
def asmFileLines (prelude : List (List Nat)) (asm : List (List Nat)) :
    List (List Nat) :=
  prelude ++ [strBytes ".section .text, \"ax\"", []] ++ asm

/-! ### `fixup_objfile` step 4: reginfo OR-merge (lines 427-432) -/

/-- `for i in range(20): data[i] |= source_reginfo_data[i]` — reading past
either buffer raises.  The first argument counts the remaining iterations
(`20 - i`). -/
def reginfoGo (src : List Nat) : Nat → Nat → List Nat → Option (List Nat)
  | 0, _, d => some d
  | n + 1, i, d =>
    match d[i]?, src[i]? with
    | some a, some b => reginfoGo src n (i + 1) (d.set i (a ||| b))
    | _, _ => none

def reginfoMergeCode (tgt src : List Nat) : Option (List Nat) :=
  reginfoGo src 20 0 tgt

/-! ### `fixup_objfile` step 5: text splice (lines 437-442)

Python list slice assignment `data[a:b] = repl` clamps the indices and splices
`repl` in, so the list length changes when `repl` is shorter or longer than
the replaced range. -/

def pySlice (l : List Nat) (a b : Nat) : List Nat := (l.take b).drop a

def pySliceAssign (l : List Nat) (a b : Nat) (repl : List Nat) : List Nat :=
  let lo := min a l.length
  let hi := max lo (min b l.length)
  l.take lo ++ repl ++ l.drop hi

/-- `for (pos, count) in to_copy: data[pos*4 : pos*4+count*4] =
source.data[pos*4 : pos*4+count*4]`. -/
def spliceTextCode (tgt src : List Nat) (plan : List (Nat × Nat)) : List Nat :=
  plan.foldl
    (fun d pc =>
      pySliceAssign d (pc.1 * 4) (pc.1 * 4 + pc.2 * 4)
        (pySlice src (pc.1 * 4) (pc.1 * 4 + pc.2 * 4)))
    tgt

/-! ### `fixup_objfile` step 6: symbol merge (lines 447-470)

The loop keeps every target symbol whose name is not a placeholder temp name
and assigns `new_index` in insertion order; then it appends the source symbols
after the first `sh_info` (local) ones, requiring any defined symbol to live
in the source `.text` (rewriting it to the target `.text`), setting
`STT_FUNC` for spliced `fn_name`s of *defined* symbols, and offsetting
`st_name` by the original target strtab length.  The old-index → `new_index`
maps (Python's dynamic `new_index` attribute, absent for dropped target
symbols and for source locals) are returned alongside. -/

def symAdj (srcTextIdx tgtTextIdx strtabAdj : Nat) (fnNames : List (List Nat))
    (s : Symbol) : Option Symbol :=
  if s.st_shndx ≠ SHN_UNDEF then
    if s.st_shndx = srcTextIdx then
      let s1 := { s with st_shndx := tgtTextIdx }
      let s2 := if s1.name ∈ fnNames then { s1 with type := STT_FUNC } else s1
      some { s2 with st_name := s2.st_name + strtabAdj }
    else none
  else some { s with st_name := s.st_name + strtabAdj }

/-- Target half of the merge loop: retained entries, per-old-position
`new_index` (`none` = dropped, no attribute), and the running index. -/
def mergeGoTarget (tempNames : List (List Nat)) :
    List Symbol → Nat → List Symbol × List (Option Nat) × Nat
  | [], idx => ([], [], idx)
  | s :: rest, idx =>
    if s.name ∈ tempNames then
      let r := mergeGoTarget tempNames rest idx
      (r.1, none :: r.2.1, r.2.2)
    else
      let r := mergeGoTarget tempNames rest (idx + 1)
      (s :: r.1, some idx :: r.2.1, r.2.2)

/-- Source half of the merge loop over `symbol_entries[num_local_syms:]`. -/
def mergeGoSource (adj : Symbol → Option Symbol) :
    List Symbol → Nat → Option (List Symbol × List (Option Nat) × Nat)
  | [], idx => some ([], [], idx)
  | s :: rest, idx =>
    match adj s with
    | none => none
    | some s' =>
      match mergeGoSource adj rest (idx + 1) with
      | none => none
      | some r => some (s' :: r.1, some idx :: r.2.1, r.2.2)

/-- The whole merge: returns `(new_entries, target old→new map, source
old→new map)`. -/
def mergeSymbolsCode (tgtSyms srcSyms : List Symbol) (numLocal : Nat)
    (tempNames fnNames : List (List Nat)) (srcTextIdx tgtTextIdx strtabAdj : Nat) :
    Option (List Symbol × List (Option Nat) × List (Option Nat)) :=
  let rt := mergeGoTarget tempNames tgtSyms 0
  match mergeGoSource (symAdj srcTextIdx tgtTextIdx strtabAdj fnNames)
      (srcSyms.drop numLocal) rt.2.2 with
  | none => none
  | some rs =>
    some (rt.1 ++ rs.1, rt.2.1,
          List.replicate (min numLocal srcSyms.length) none ++ rs.2.1)

/-! ### `fixup_objfile` steps 7-8: relocation remapping (lines 473-498) -/

/-- Step 7 inner loop: `rel.sym_index =
objfile.symtab.symbol_entries[rel.sym_index].new_index` — an out-of-range
index raises IndexError, a dropped symbol has no `new_index` attribute. -/
def remapTargetRelocs (relocs : List Relocation) (tgtMap : List (Option Nat)) :
    Option (List Relocation) :=
  relocs.mapM (fun r =>
    match tgtMap[r.sym_index]? with
    | none => none
    | some o =>
      match o with
      | none => none
      | some k => some { r with sym_index := k })

/-- Step 8 inner loop, with the `sym_index >= num_local_syms` assertion. -/
def remapSourceRelocs (relocs : List Relocation) (numLocal : Nat)
    (srcMap : List (Option Nat)) : Option (List Relocation) :=
  relocs.mapM (fun r =>
    if numLocal ≤ r.sym_index then
      match srcMap[r.sym_index]? with
      | none => none
      | some o =>
        match o with
        | none => none
        | some k => some { r with sym_index := k }
    else none)

/-! ### `ElfFile.add_section` (lines 279-289)

Appends the name to the section-name table (`add_str` asserts it is a
`SHT_STRTAB`), builds a fresh section via `Section.from_parts` (whose packed
header goes through the `Section` constructor and its assertions, with
`sh_addr = sh_offset = 0` and `sh_size = len(data)`), appends it, sets its
resolved `name`, and runs `late_init` (which, for a REL/RELA section, pushes
the new section onto its target's `relocated_by`). -/

def mkShdr (nm ty fl ad off sz lk inf al ent : Nat) : List Nat :=
  beBytes 4 nm ++ beBytes 4 ty ++ beBytes 4 fl ++ beBytes 4 ad ++ beBytes 4 off ++
  beBytes 4 sz ++ beBytes 4 lk ++ beBytes 4 inf ++ beBytes 4 al ++ beBytes 4 ent

/-- The section record produced by a successful `add_section` of an empty
REL/RELA table (used to reason about `add_section`). -/
def addedSec (shlen idxv ty lk inf al ent : Nat) (nm : List Nat) : Section :=
  { sh_name := shlen, sh_type := ty, sh_flags := 0, sh_addr := 0,
    sh_offset := 0, sh_size := 0, sh_link := lk, sh_info := inf,
    sh_addralign := al, sh_entsize := ent, data := [], index := idxv,
    name := nm, relocations := [] }

def pushRelocatedBy (secs : List Section) (tgtIdx newIdx : Nat) : List Section :=
  match secs[tgtIdx]? with
  | none => secs
  | some t => secs.set tgtIdx { t with relocated_by := t.relocated_by ++ [newIdx] }

def ElfFile.add_section (E : ElfFile) (nm : List Nat)
    (ty fl lk inf al ent : Nat) (data : List Nat) : Option ElfFile :=
  match E.sections[E.elf_header.e_shstrndx]? with
  | none => none
  | some shstr =>
    if shstr.sh_type = SHT_STRTAB then
      let sh_name := shstr.data.length
      let shstr' := { shstr with data := shstr.data ++ nm ++ [0] }
      let secs1 := E.sections.set E.elf_header.e_shstrndx shstr'
      let idx := secs1.length
      if fitsU 4 sh_name ∧ fitsU 4 ty ∧ fitsU 4 fl ∧ fitsU 4 data.length ∧
         fitsU 4 lk ∧ fitsU 4 inf ∧ fitsU 4 al ∧ fitsU 4 ent then
        match Section.parse
            (mkShdr sh_name ty fl 0 0 data.length lk inf al ent) data idx with
        | none => none
        | some s0 =>
          let s1 := { s0 with name := nm }
          match Section.lateInit (secs1 ++ [s1]) s1 with
          | none => none
          | some s2 =>
            let secs2 := secs1 ++ [s2]
            some { E with sections :=
                     if s2.isRel then pushRelocatedBy secs2 s2.sh_info idx
                     else secs2 }
      else none
    else none

/-! ### `fixup_objfile` step 8 driver (lines 478-498)

Iterates `source.relocated_by`; remaps each table's `sym_index`es through the
source map, serializes, and appends the bytes to the target's
`.rel.text`/`.rela.text`, creating the section (type `SHT_REL`,
`sh_entsize = 8` / type `SHT_RELA`, `sh_entsize = 12`, `sh_flags = 0`,
`sh_link = symtab.index`, `sh_info = text.index`, `sh_addralign = 4`) when
absent.  The two running references `target_reltab`/`target_reltaba` are
tracked as indices. -/

def propGo (symtabIdx tgtTextIdx numLocal : Nat) (srcMap : List (Option Nat)) :
    List Section → ElfFile → Option Nat → Option Nat → Option ElfFile
  | [], E, _, _ => some E
  | rt :: rest, E, relIdx, relaIdx =>
    match remapSourceRelocs rt.relocations numLocal srcMap with
    | none => none
    | some rl =>
      let newData := (rl.map Relocation.to_bin).flatten
      if rt.sh_type = SHT_REL then
        match relIdx with
        | some i =>
          match E.sections[i]? with
          | none => none
          | some sec =>
            propGo symtabIdx tgtTextIdx numLocal srcMap rest
              { E with sections :=
                  E.sections.set i { sec with data := sec.data ++ newData } }
              relIdx relaIdx
        | none =>
          match E.add_section (strBytes ".rel.text") SHT_REL 0 symtabIdx
              tgtTextIdx 4 8 [] with
          | none => none
          | some E1 =>
            let i := E.sections.length
            match E1.sections[i]? with
            | none => none
            | some sec =>
              propGo symtabIdx tgtTextIdx numLocal srcMap rest
                { E1 with sections :=
                    E1.sections.set i { sec with data := sec.data ++ newData } }
                (some i) relaIdx
      else
        match relaIdx with
        | some i =>
          match E.sections[i]? with
          | none => none
          | some sec =>
            propGo symtabIdx tgtTextIdx numLocal srcMap rest
              { E with sections :=
                  E.sections.set i { sec with data := sec.data ++ newData } }
              relIdx relaIdx
        | none =>
          match E.add_section (strBytes ".rela.text") SHT_RELA 0 symtabIdx
              tgtTextIdx 4 12 [] with
          | none => none
          | some E1 =>
            let i := E.sections.length
            match E1.sections[i]? with
            | none => none
            | some sec =>
              propGo symtabIdx tgtTextIdx numLocal srcMap rest
                { E1 with sections :=
                    E1.sections.set i { sec with data := sec.data ++ newData } }
                relIdx (some i)

def propagateSourceRelocs (E : ElfFile) (tgtTextIdx numLocal : Nat)
    (srcMap : List (Option Nat)) (srcRelTabs : List Section) : Option ElfFile :=
  propGo E.symtabIdx tgtTextIdx numLocal srcMap srcRelTabs E
    (E.sections.findIdx? (fun s => s.name == strBytes ".rel.text"))
    (E.sections.findIdx? (fun s => s.name == strBytes ".rela.text"))

/-! ### `fixup_objfile` as a whole (lines 380-507)

The pipeline is modelled as a pure function from the target object's bytes,
the scanner's function descriptors and an assembler oracle (the external
`os.system` call: assembly lines in, object bytes out, `none` for a non-zero
exit) to the written output bytes, together with a trace of the file-system
events the source performs: creating and removing the temporary `.s`/`.o`
files and writing the merged output.  Failures inside the `try` block skip
the output write but still reach the `finally` removals; failures before the
temporary files are created (ELF parse of the target, placeholder lookup)
produce no events at all. -/

inductive Ev where
  | createO : Ev
  | createS : Ev
  | truncateOutput : Ev
  | writeOutput : Ev
  | removeS : Ev
  | removeO : Ev
deriving DecidableEq, Repr

def ElfFile.setSecData (E : ElfFile) (i : Nat) (d : List Nat) : Option ElfFile :=
  match E.sections[i]? with
  | none => none
  | some s => some { E with sections := E.sections.set i { s with data := d } }

def reginfoName : List Nat := strBytes ".reginfo"
def textName : List Nat := strBytes ".text"

/-- Step 7's per-table rewrite: remap and re-serialize one relocation table. -/
def remapOneTargetTab (tgtMap : List (Option Nat)) (ob : ElfFile) (i : Nat) :
    Option ElfFile :=
  match ob.sections[i]? with
  | none => none
  | some rsec =>
    match remapTargetRelocs rsec.relocations tgtMap with
    | none => none
    | some rl =>
      let rsec' := { rsec with relocations := rl,
                               data := (rl.map Relocation.to_bin).flatten }
      some { ob with sections := ob.sections.set i rsec' }

/-- Step 7 loop over `target.relocated_by`. -/
def remapTargetTabs (tgtMap : List (Option Nat)) :
    List Nat → ElfFile → Option ElfFile
  | [], ob => some ob
  | i :: rest, ob =>
    match remapOneTargetTab tgtMap ob i with
    | none => none
    | some ob' => remapTargetTabs tgtMap rest ob'

/-- Symbol-merge portion of the `try` block (lines 447-470): append the source
strtab, merge the symbol lists, re-serialize the symtab payload.  Returns the
updated object plus the two old→new index maps. -/
def mergeSymbolsStep (obj : ElfFile) (asmObj : ElfFile)
    (tempNames fnNames : List (List Nat)) (srcTextIdx tgtTextIdx : Nat) :
    Option (ElfFile × Nat × List (Option Nat) × List (Option Nat)) :=
  match obj.sections[obj.symtabIdx]? with
  | none => none
  | some symtab =>
  match obj.sections[symtab.sh_link]? with
  | none => none
  | some strtab =>
  match asmObj.sections[asmObj.symtabIdx]? with
  | none => none
  | some asmSymtab =>
  match asmObj.sections[asmSymtab.sh_link]? with
  | none => none
  | some asmStrtab =>
  match obj.setSecData symtab.sh_link (strtab.data ++ asmStrtab.data) with
  | none => none
  | some obj1 =>
  match mergeSymbolsCode symtab.symbol_entries asmSymtab.symbol_entries
      asmSymtab.sh_info tempNames fnNames srcTextIdx tgtTextIdx
      strtab.data.length with
  | none => none
  | some mr =>
  match obj1.setSecData obj1.symtabIdx ((mr.1.map Symbol.to_bin).flatten) with
  | none => none
  | some obj2 => some (obj2, asmSymtab.sh_info, mr.2.1, mr.2.2)

/-- The body of the `try` block before the final write (lines 414-498):
assemble, parse the assembled object, merge reginfo, splice `.text`, merge
symbol tables, remap target-side relocations and propagate source-side
relocations, yielding the merged model that line 500 passes to `write`. -/
def fixupTry (obj : ElfFile) (toCopy : List (Nat × Nat))
    (tempNames fnNames : List (List Nat)) (asmLines : List (List Nat))
    (assemble : List (List Nat) → Option (List Nat)) : Option ElfFile :=
  match assemble asmLines with
  | none => none
  | some oBytes =>
  match ElfFile.parse oBytes with
  | none => none
  | some asmObj =>
  -- Unify reginfo sections
  match obj.findSection reginfoName, asmObj.findSection reginfoName with
  | some tgtRI, some srcRI =>
    match reginfoMergeCode tgtRI.data srcRI.data with
    | none => none
    | some riData =>
    match obj.setSecData tgtRI.index riData with
    | none => none
    | some obj1 =>
    -- Move over code
    match asmObj.findSection textName, obj1.findSection textName with
    | some src, some tgt =>
      match obj1.setSecData tgt.index (spliceTextCode tgt.data src.data toCopy) with
      | none => none
      | some obj2 =>
      -- Move over symbols, deleting the temporary function labels
      match mergeSymbolsStep obj2 asmObj tempNames fnNames src.index tgt.index with
      | none => none
      | some r3 =>
      -- Move over relocations (target side)
      match remapTargetTabs r3.2.2.1 tgt.relocated_by r3.1 with
      | none => none
      | some obj4 =>
      -- Propagate source-side relocations
      match src.relocated_by.mapM (fun i => asmObj.sections[i]?) with
      | none => none
      | some srcTabs =>
      match propagateSourceRelocs obj4 tgt.index r3.2.1 r3.2.2.2 srcTabs with
      | none => none
      | some obj5 => some obj5
    | _, _ => none
  | _, _ => none

/-- `fixup_objfile(objfile_name, functions, asm_prelude, assembler)`:
`(output bytes?, file-system event trace)`.  The final step (line 500) calls
`objfile.write(objfile_name)`, which first opens the target for writing —
truncating it (`Ev.truncateOutput`) — and only emits `Ev.writeOutput` when
the serialization completes; a pack failure inside the write leaves the
truncated/partial file behind.  The `finally` block always removes the
temporary `.s` and `.o` files. -/
def fixupRun (objBytes : List Nat) (functions : List FuncDesc)
    (assemble : List (List Nat) → Option (List Nat)) :
    Option (List Nat) × List Ev :=
  match ElfFile.parse objBytes with
  | none => (none, [])
  | some obj =>
    match genAsm obj functions with
    | none => (none, [])
    | some g =>
      match fixupTry obj g.2.1 g.2.2.1 g.2.2.2 g.1 assemble with
      | none => (none, [Ev.createO, Ev.createS, Ev.removeS, Ev.removeO])
      | some obj5 =>
        let w := obj5.writeFs
        if w.2 then
          (some w.1, [Ev.createO, Ev.createS, Ev.truncateOutput,
            Ev.writeOutput, Ev.removeS, Ev.removeO])
        else
          (none, [Ev.createO, Ev.createS, Ev.truncateOutput,
            Ev.removeS, Ev.removeO])

/-! ### `parse_source` (lines 321-378)

A line-by-line state machine over the C file.  Lines are `List Char`; each
input line yields exactly one output line in print mode (that is the point of
the code's comment at lines 374-375), except that a failing assertion aborts
the run (`none`).  Python's default `strip`/`lstrip`/`rstrip` whitespace and
its two regex substitutions `/\*.*?\*/` → `''` and `#.*` → `''` are modelled
directly. -/

def pyWS (c : Char) : Bool :=
  c = ' ' || c = '\t' || c = '\n' || c = '\r' || c = '\x0b' || c = '\x0c'

def pyLstrip (l : List Char) : List Char := l.dropWhile pyWS

def pyRstrip (l : List Char) : List Char :=
  (l.reverse.dropWhile pyWS).reverse

def pyStrip (l : List Char) : List Char := pyLstrip (pyRstrip l)

/-- Scan to the first `*/` and return what follows. -/
def dropThroughClose : List Char → Option (List Char)
  | [] => none
  | c :: rest =>
    if c = '*' ∧ rest.head? = some '/' then some rest.tail
    else dropThroughClose rest

theorem dropThroughClose_length :
    ∀ l r, dropThroughClose l = some r → r.length < l.length := by
  intro l
  induction l with
  | nil => intro r h; simp [dropThroughClose] at h
  | cons c rest ih =>
    intro r h
    rw [dropThroughClose] at h
    split at h
    · rename_i hc
      cases h
      cases rest with
      | nil => simp at hc
      | cons d ds => simp; omega
    · have := ih r h
      simp
      omega

/-- `re.sub(r'/\*.*?\*/', '', line)`: repeatedly delete the leftmost
`/* ... */` (shortest close); an unclosed `/*` matches nothing.  Structural
recursion on a fuel that starts at the line length (each step strictly
shrinks the list, so the fuel never runs out). -/
def stripBlockGo : Nat → List Char → List Char
  | 0, l => l
  | fuel + 1, l =>
    match l with
    | [] => []
    | c :: rest =>
      if c = '/' ∧ rest.head? = some '*' then
        match dropThroughClose rest.tail with
        | some r => stripBlockGo fuel r
        | none => c :: rest
      else c :: stripBlockGo fuel rest

def stripBlockComments (l : List Char) : List Char := stripBlockGo l.length l

/-- `re.sub(r'#.*', '', line)`. -/
def stripHashComment (l : List Char) : List Char :=
  l.takeWhile (fun c => c ≠ '#')

/-- `str.split()` (whitespace-separated words, no empties). -/
def pyWordsAux : List Char → List Char → List (List Char)
  | [], acc => if acc.isEmpty then [] else [acc.reverse]
  | c :: rest, acc =>
    if pyWS c then
      if acc.isEmpty then pyWordsAux rest []
      else acc.reverse :: pyWordsAux rest []
    else pyWordsAux rest (c :: acc)

def pyWords (l : List Char) : List (List Char) := pyWordsAux l []

/-- The processed form of a raw input line inside a GLOBAL_ASM block: the
source computes `line = raw_line.rstrip()` then `line.lstrip()`, strips block
comments and `#` comments and strips whitespace again
(`re.sub(...); re.sub(...); .strip()`). -/
def psLine2 (raw : List Char) : List Char :=
  pyStrip (stripHashComment (stripBlockComments (pyLstrip (pyRstrip raw))))

def braceOpen : Char := Char.ofNat 123
def braceClose : Char := Char.ofNat 125

def tempFunChars (n : Nat) : List Char := "tempfun".toList ++ Nat.toDigits 10 n

/-- One `asm_functions` record: `(fn_name, temp_fn_name, asm_conts,
instr_count)`. -/
structure AsmFunc where
  fn_name : List Char
  temp_fn_name : List Char
  body : List (List Char)
  num_instr : Nat
deriving DecidableEq, Repr

structure PSState where
  in_asm : Bool
  instr_count : Nat
  asm_conts : List (List Char)
  namectr : Nat
  temp_fn_name : Option (List Char)
  fn_name : Option (List Char)
  asm_functions : List AsmFunc
deriving DecidableEq, Repr

def psInit : PSState :=
  { in_asm := false, instr_count := 0, asm_conts := [], namectr := 0,
    temp_fn_name := none, fn_name := none, asm_functions := [] }

/-- One iteration of the `for raw_line in f` loop: the updated state and the
single `output_line` printed for this input line. -/
def psStep (optimized : Bool) (st : PSState) (rawIn : List Char) :
    Option (PSState × List Char) :=
  let min_instr_count := if optimized then 2 else 4
  let skip_instr_count := if optimized then 1 else 4
  let raw := pyRstrip rawIn
  let line := pyLstrip raw
  if st.in_asm then
    if [')'].isPrefixOf line then
      match st.fn_name with
      | none => none            -- assert fn_name
      | some fn =>
        if min_instr_count ≤ st.instr_count then
          let rec0 : AsmFunc :=
            { fn_name := fn, temp_fn_name := st.temp_fn_name.getD [],
              body := st.asm_conts, num_instr := st.instr_count }
          let st' := { st with in_asm := false,
                               asm_functions := st.asm_functions ++ [rec0] }
          some (st', [braceClose])
        else none               -- assert instr_count >= min_instr_count
    else
      let l2 := pyStrip (stripHashComment (stripBlockComments line))
      let st1 := { st with asm_conts := st.asm_conts ++ [l2] }
      if "glabel ".toList.isPrefixOf l2 ∧ st1.fn_name = none then
        match (pyWords l2)[1]? with
        | none => none          -- line.split()[1] raises
        | some w =>
          -- a glabel line is a label: no instruction, empty output
          some ({ st1 with fn_name := some w }, [])
      else if "glabel ".toList.isPrefixOf l2 ∨ ['.'].isPrefixOf l2 ∨ l2.isEmpty then
        some (st1, [])          -- labels, directives, empty lines
      else
        match st1.fn_name with
        | none => none          -- assert fn_name is not None
        | some _ =>
          let st2 := { st1 with instr_count := st1.instr_count + 1 }
          if skip_instr_count < st2.instr_count then
            some (st2, "*(volatile int*)0 = 0;".toList)
          else some (st2, [])
  else
    if "GLOBAL_ASM(".toList.isPrefixOf line then
      let temp := tempFunChars st.namectr
      let st' := { st with in_asm := true, instr_count := 0, asm_conts := ([] : List (List Char)), temp_fn_name := some temp, namectr := st.namectr + 1, fn_name := none }
      some (st', "void ".toList ++ temp ++ "(void) ".toList ++ [braceOpen])
    else some (st, raw)

/-- The whole loop: all printed output lines and the final state. -/
def parseSourceGo (optimized : Bool) :
    List (List Char) → PSState → Option (List (List Char) × PSState)
  | [], st => some ([], st)
  | l :: rest, st =>
    match psStep optimized st l with
    | none => none
    | some r =>
      match parseSourceGo optimized rest r.1 with
      | none => none
      | some rr => some (r.2 :: rr.1, rr.2)

/-- `parse_source(f, print_source=True, optimized)`: the printed stand-in
source and the extracted `asm_functions`. -/
def parseSource (optimized : Bool) (lines : List (List Char)) :
    Option (List (List Char) × List AsmFunc) :=
  (parseSourceGo optimized lines psInit).map (fun r => (r.1, r.2.asm_functions))

/-! ### String-table methods on sections (`lookup_str` / `add_str`) -/

def Section.lookup_str (s : Section) (index : Nat) : Option (List Nat) :=
  if s.sh_type = SHT_STRTAB then lookupStrData s.data index else none

/-- `add_str` returns the pre-append length and the section with
`string + b'\0'` appended. -/
def Section.add_str (s : Section) (str : List Nat) : Option (Nat × Section) :=
  if s.sh_type = SHT_STRTAB then
    some (s.data.length, { s with data := s.data ++ str ++ [0] })
  else none

/-! ### Views for functional equivalence (claim C1's comparison relation) -/

structure SymView where
  name : List Nat
  value : Nat
  size : Nat
  bind : Nat
  type : Nat
  vis : Nat
  shndx : Nat
deriving DecidableEq, Repr

def Symbol.view (s : Symbol) : SymView :=
  { name := s.name, value := s.st_value, size := s.st_size, bind := s.bind,
    type := s.type, vis := s.st_other % 4, shndx := s.st_shndx }

structure RelView where
  offset : Nat
  rtype : Nat
  symName : Option (List Nat)
  addend : Option Nat
deriving DecidableEq, Repr

def relView (symtabSyms : List Symbol) (r : Relocation) : RelView :=
  { offset := r.r_offset, rtype := r.rel_type,
    symName := (symtabSyms[r.sym_index]?).map Symbol.name, addend := r.r_addend }

structure SecView where
  name : List Nat
  sh_type : Nat
  sh_flags : Nat
  sh_link : Nat
  sh_info : Nat
  sh_addralign : Nat
  sh_entsize : Nat
  payload : List Nat
  syms : List SymView
  rels : List RelView
deriving DecidableEq, Repr

/-- Functional view of a parsed object: per section its name, type, flags,
link, info, addralign, entsize and payload bytes, its symbol sequence and its
relocation sequence (relocations name their symbol through the symtab). -/
def elfView (E : ElfFile) : List SecView :=
  let stSyms := (((E.sections[E.symtabIdx]?).map Section.symbol_entries).getD [])
  E.sections.map (fun s =>
    { name := s.name, sh_type := s.sh_type, sh_flags := s.sh_flags,
      sh_link := s.sh_link, sh_info := s.sh_info, sh_addralign := s.sh_addralign,
      sh_entsize := s.sh_entsize, payload := s.data,
      syms := s.symbol_entries.map Symbol.view,
      rels := s.relocations.map (relView stSyms) })

/-! ### Spec-side (declarative) companions used to state the claims -/

/-- Claim C5's description of the generated assembly: for each function (with
its placeholder's word offset), `(loc - prev_loc)` nops then the body, with
`prev_loc` starting at 0 and becoming `loc + num_instr`. -/
def genAsmSpec : Nat → List (FuncDesc × Nat) → List (List Nat)
  | _, [] => []
  | prev, (f, loc) :: rest =>
    List.replicate (loc - prev) nopLine ++ f.body ++
    genAsmSpec (loc + f.num_instr) rest

/-- Claim C5's validity condition on the copy plan: each placeholder is found,
word-aligned, in order; the plan records `(loc, num_instr)`. -/
def planOK (st : Section) : List FuncDesc → Nat → List (Nat × Nat) → Prop
  | [], _, cp => cp = []
  | f :: fs, prev, cp =>
    ∃ shndx v cps, st.find_symbol f.temp_fn_name = some (shndx, v) ∧
      v % 4 = 0 ∧ prev ≤ v / 4 ∧ cp = (v / 4, f.num_instr) :: cps ∧
      planOK st fs (v / 4 + f.num_instr) cps

/-- The amended claim C2's per-symbol transform of an appended source symbol:
defined symbols are rewritten to the target `.text` and, when spliced, marked
`STT_FUNC`; every symbol's `st_name` is shifted. -/
def claimedAdj (tgtTextIdx strtabAdj : Nat) (fnNames : List (List Nat))
    (s : Symbol) : Symbol :=
  if s.st_shndx ≠ SHN_UNDEF then
    { s with st_shndx := tgtTextIdx,
             type := if s.name ∈ fnNames then STT_FUNC else s.type,
             st_name := s.st_name + strtabAdj }
  else { s with st_name := s.st_name + strtabAdj }

/-! ### Concrete input objects used by counterexamples and witnesses -/

def mkEhdr (shoff shentsize shnum shstrndx : Nat) : List Nat :=
  [0x7f, 0x45, 0x4c, 0x46, 1, 2, 1, 0, 0, 0, 0, 0, 0, 0, 0, 0] ++
  beBytes 2 1 ++ beBytes 2 8 ++ beBytes 4 1 ++ beBytes 4 0 ++ beBytes 4 0 ++
  beBytes 4 shoff ++ beBytes 4 0 ++ beBytes 2 52 ++ beBytes 2 0 ++ beBytes 2 0 ++
  beBytes 2 shentsize ++ beBytes 2 shnum ++ beBytes 2 shstrndx

def mkSym (nm val sz info other shndx : Nat) : List Nat :=
  beBytes 4 nm ++ beBytes 4 val ++ beBytes 4 sz ++ [info, other] ++ beBytes 2 shndx

/-- A valid 4-section object (null, empty symtab, strtab, shstrtab) whose null
section header claims 2 payload bytes at offset 214 — junk the writer does not
re-place, breaking the parse/write round trip (claim C1). -/
def c1CtrBytes : List Nat :=
  mkEhdr 52 40 4 3 ++
  mkShdr 0 0 0 0 214 2 0 0 0 0 ++
  mkShdr 0 2 0 0 212 0 2 0 0 16 ++
  mkShdr 0 3 0 0 212 1 0 0 0 0 ++
  mkShdr 0 3 0 0 213 4 0 0 0 0 ++
  [0] ++ [0, 65, 66, 0]

/-- The same object with a well-behaved (empty) null section: a clean
round-trip witness. -/
def c1WitBytes : List Nat :=
  mkEhdr 52 40 4 3 ++
  mkShdr 0 0 0 0 0 0 0 0 0 0 ++
  mkShdr 0 2 0 0 212 0 2 0 0 16 ++
  mkShdr 0 3 0 0 212 1 0 0 0 0 ++
  mkShdr 0 3 0 0 213 4 0 0 0 0 ++
  [0] ++ [0, 65, 66, 0]

/-- Target object for the pipeline counterexamples: sections null, `.text`
(8 bytes), `.data`, `.rel.data` (one entry pointing at symbol 2), `.symtab`
(null symbol, `tempfun0`, `X`), `.strtab`, `.reginfo`, `.shstrtab`. -/
def tgtShstr : List Nat :=
  [0] ++ strBytes ".text" ++ [0] ++ strBytes ".data" ++ [0] ++
  strBytes ".rel.data" ++ [0] ++ strBytes ".symtab" ++ [0] ++
  strBytes ".strtab" ++ [0] ++ strBytes ".reginfo" ++ [0] ++
  strBytes ".shstrtab" ++ [0]

def c34TgtBytes : List Nat :=
  mkEhdr 52 40 8 7 ++
  mkShdr 0 0 0 0 0 0 0 0 0 0 ++
  mkShdr 1 1 6 0 372 8 0 0 4 0 ++
  mkShdr 7 1 3 0 380 4 0 0 4 0 ++
  mkShdr 13 9 0 0 384 8 4 2 4 8 ++
  mkShdr 23 2 0 0 392 48 5 1 4 16 ++
  mkShdr 31 3 0 0 440 12 0 0 1 0 ++
  mkShdr 39 0x70000006 2 0 452 24 0 0 4 0 ++
  mkShdr 48 3 0 0 476 58 0 0 1 0 ++
  [1,1,1,1,1,1,1,1] ++ [9,9,9,9] ++ (beBytes 4 0 ++ beBytes 4 0x202) ++
  (mkSym 0 0 0 0 0 0 ++ mkSym 1 0 0 0x10 0 1 ++ mkSym 10 0 0 0x10 0 2) ++
  ([0] ++ strBytes "tempfun0" ++ [0] ++ strBytes "X" ++ [0]) ++
  ([0,0,0,15] ++ List.replicate 20 0) ++ tgtShstr

/-- Assembled source object for the pipeline counterexamples: `.text` is only
4 bytes (shorter than the 16-byte copy plan demands) and its symtab is all
local. -/
def srcShstr : List Nat :=
  [0] ++ strBytes ".text" ++ [0] ++ strBytes ".reginfo" ++ [0] ++
  strBytes ".symtab" ++ [0] ++ strBytes ".strtab" ++ [0] ++
  strBytes ".shstrtab" ++ [0]

def c34SrcBytes : List Nat :=
  mkEhdr 52 40 6 5 ++
  mkShdr 0 0 0 0 0 0 0 0 0 0 ++
  mkShdr 1 1 6 0 292 4 0 0 4 0 ++
  mkShdr 7 0x70000006 2 0 296 24 0 0 4 0 ++
  mkShdr 16 2 0 0 320 16 4 1 4 16 ++
  mkShdr 24 3 0 0 336 1 0 0 1 0 ++
  mkShdr 32 3 0 0 337 42 0 0 1 0 ++
  [5,5,5,5] ++ List.replicate 24 0 ++ mkSym 0 0 0 0 0 0 ++ [0] ++ srcShstr

/-- The single spliced function of the pipeline counterexamples: placeholder
`tempfun0` at word 0, 4 instructions. -/
def c34Fns : List FuncDesc :=
  [{ fn_name := strBytes "f", temp_fn_name := strBytes "tempfun0",
     body := [nopLine, nopLine, nopLine, nopLine], num_instr := 4 }]

def c34Oracle : List (List Nat) → Option (List Nat) := fun _ => some c34SrcBytes

/-- Claim E2's symtab: placeholders `tempfun0` at `st_value 0` and `tempfun1`
at `st_value 40` (word 10). -/
def e2Symtab : Section :=
  { sh_name := 0, sh_type := SHT_SYMTAB, sh_flags := 0, sh_addr := 0,
    sh_offset := 0, sh_size := 0, sh_link := 0, sh_info := 0, sh_addralign := 0,
    sh_entsize := 16, data := [], index := 1,
    symbol_entries :=
      [{ st_name := 0, st_value := 0, st_size := 0, bind := 1, type := 0,
         st_other := 0, st_shndx := 1, name := strBytes "tempfun0" },
       { st_name := 0, st_value := 40, st_size := 0, bind := 1, type := 0,
         st_other := 0, st_shndx := 1, name := strBytes "tempfun1" }] }

def e2BodyA : List (List Nat) :=
  [strBytes "A1", strBytes "A2", strBytes "A3", strBytes "A4"]

def e2BodyB : List (List Nat) := [strBytes "B1", strBytes "B2", strBytes "B3"]

def e2Fns : List FuncDesc :=
  [{ fn_name := strBytes "a", temp_fn_name := strBytes "tempfun0",
     body := e2BodyA, num_instr := 4 },
   { fn_name := strBytes "b", temp_fn_name := strBytes "tempfun1",
     body := e2BodyB, num_instr := 3 }]

/-- Concrete string-table section for the claim C9 counterexample. -/
def c9Sec : Section :=
  { sh_name := 0, sh_type := SHT_STRTAB, sh_flags := 0, sh_addr := 0,
    sh_offset := 0, sh_size := 0, sh_link := 0, sh_info := 0, sh_addralign := 0,
    sh_entsize := 0, data := [0], index := 2 }

/-- Target symbols for the claim C2 counterexample: one placeholder. -/
def c2TgtSyms : List Symbol :=
  [{ st_name := 1, st_value := 0, st_size := 0, bind := 1, type := 0,
     st_other := 0, st_shndx := 1, name := strBytes "tempfun0" }]

/-- Source symbols for the claim C2 counterexample: a local null symbol, then
two appended UNDEF globals — one named like a spliced function, one named like
a placeholder. -/
def c2SrcSyms : List Symbol :=
  [{ st_name := 0, st_value := 0, st_size := 0, bind := 0, type := 0,
     st_other := 0, st_shndx := 0, name := [] },
   { st_name := 1, st_value := 0, st_size := 0, bind := 1, type := 0,
     st_other := 0, st_shndx := 0, name := strBytes "f" },
   { st_name := 3, st_value := 0, st_size := 0, bind := 1, type := 0,
     st_other := 0, st_shndx := 0, name := strBytes "tempfun0" }]

/-- Relocation used by the claim C3 witness. -/
def c3Rel : Relocation :=
  { sh_type := SHT_REL, r_offset := 0, sym_index := 1, rel_type := 2, r_addend := none }

/-- The same relocation after remapping through the appended source symbols'
new indices. -/
def c3RelMapped : Relocation :=
  { sh_type := SHT_REL, r_offset := 0, sym_index := 0, rel_type := 2, r_addend := none }

/-- The merged symbol list of the C2/C3 witness input, computed. -/
def c3MergedF : Symbol :=
  { st_name := 6, st_value := 0, st_size := 0, bind := 1, type := 0,
    st_other := 0, st_shndx := 0, name := strBytes "f" }

def c3MergedT : Symbol :=
  { st_name := 8, st_value := 0, st_size := 0, bind := 1, type := 0,
    st_other := 0, st_shndx := 0, name := strBytes "tempfun0" }

/-- A trivially empty header / file, used only as `Option.getD` fallbacks for
concrete inputs (the parses are proved to succeed, so the fallback is dead). -/
def c6Hdr0 : ElfHeader :=
  { e_ident := [], e_type := 0, e_machine := 0, e_version := 0, e_entry := 0,
    e_phoff := 0, e_shoff := 0, e_flags := 0, e_ehsize := 0, e_phentsize := 0,
    e_phnum := 0, e_shentsize := 0, e_shstrndx := 0, e_shnum := 0 }

def c6Fallback : ElfFile := { elf_header := c6Hdr0, sections := [], symtabIdx := 0 }

/-- The parsed C3/C4 target object: it has no `.rel.text` and no `.rela.text`. -/
def c6E : ElfFile := (ElfFile.parse c34TgtBytes).getD c6Fallback

/-- A source-side REL table targeting the source `.text`, one entry. -/
def c6Rel : Section :=
  { sh_name := 0, sh_type := SHT_REL, sh_flags := 0, sh_addr := 0,
    sh_offset := 0, sh_size := 8, sh_link := 0, sh_info := 1,
    sh_addralign := 4, sh_entsize := 8, data := [], index := 0,
    relocations := [{ sh_type := SHT_REL, r_offset := 0, sym_index := 1,
                      rel_type := 2, r_addend := none }] }

/-- A source-side RELA table targeting the source `.text`, one entry. -/
def c6RelA : Section :=
  { sh_name := 0, sh_type := SHT_RELA, sh_flags := 0, sh_addr := 0,
    sh_offset := 0, sh_size := 12, sh_link := 0, sh_info := 1,
    sh_addralign := 4, sh_entsize := 12, data := [], index := 0,
    relocations := [{ sh_type := SHT_RELA, r_offset := 0, sym_index := 1,
                      rel_type := 2, r_addend := some 4 }] }

/-- Source-symbol index map: old index 1 maps to merged index 1. -/
def c6SrcMap : List (Option Nat) := [none, some 1]

/-- The remapped REL entries. -/
def c6rl : List Relocation :=
  [{ sh_type := SHT_REL, r_offset := 0, sym_index := 1, rel_type := 2,
     r_addend := none }]

/-- The remapped RELA entries. -/
def c6rlA : List Relocation :=
  [{ sh_type := SHT_RELA, r_offset := 0, sym_index := 1, rel_type := 2,
     r_addend := some 4 }]

def c6ERel : ElfFile :=
  (propagateSourceRelocs c6E 1 1 c6SrcMap [c6Rel]).getD c6Fallback

def c6ERelA : ElfFile :=
  (propagateSourceRelocs c6E 1 1 c6SrcMap [c6RelA]).getD c6Fallback

/-! ### The parse/write round-trip invariant (claim C1)

`FileGood E` collects everything `ElfFile.parse` guarantees about the model
it returns (plus the two explicit validity hypotheses of the claim: payloads
are not clamped by the end of the file, and `SHT_NULL` sections are empty).
These are exactly the facts needed for `ElfFile.write`'s output to parse back
to a functionally equivalent model. -/

structure FileGood (E : ElfFile) : Prop where
  ident_len : E.elf_header.e_ident.length = 16
  magic4 : E.elf_header.e_ident.take 4 = elfMagic
  cls32 : E.elf_header.e_ident.getD 4 0 = 1
  be2 : E.elf_header.e_ident.getD 5 0 = 2
  etype : E.elf_header.e_type = 1
  emach : E.elf_header.e_machine = 8
  ephoff : E.elf_header.e_phoff = 0
  estrndx : E.elf_header.e_shstrndx ≠ 0
  entsz : E.elf_header.e_shentsize = 40 ∨
    (E.sections.length = 1 ∧ 40 ≤ E.elf_header.e_shentsize)
  nonempty : E.sections ≠ []
  symcount : (E.sections.filter (fun s => s.sh_type == SHT_SYMTAB)).length = 1
  symidx : E.symtabIdx = E.sections.findIdx (fun s => s.sh_type == SHT_SYMTAB)
  shstrOK : ∃ t, E.sections[E.elf_header.e_shstrndx]? = some t ∧
    t.sh_type = SHT_STRTAB
  flags : ∀ s ∈ E.sections, s.sh_flags &&& SHF_LINK_ORDER = 0
  szmod : ∀ s ∈ E.sections, s.sh_entsize ≠ 0 → s.sh_size % s.sh_entsize = 0
  nobits : ∀ s ∈ E.sections, s.sh_type = SHT_NOBITS → s.data = []
  nullsec : ∀ s ∈ E.sections, s.sh_type = SHT_NULL → s.data = []
  unclamped : ∀ s ∈ E.sections, s.sh_type ≠ SHT_NOBITS →
    s.data.length = s.sh_size
  names : ∀ s ∈ E.sections, ∀ t,
    E.sections[E.elf_header.e_shstrndx]? = some t →
    lookupStrData t.data s.sh_name = some s.name
  lsym : ∀ s ∈ E.sections, s.sh_type = SHT_SYMTAB →
    symsOf E.sections s = some s.symbol_entries ∧ s.relocations = []
  lrel : ∀ s ∈ E.sections, s.isRel = true →
    s.sh_info < E.sections.length ∧ relsOf s = some s.relocations ∧
    s.symbol_entries = []
  lplain : ∀ s ∈ E.sections, s.sh_type ≠ SHT_SYMTAB → s.isRel = false →
    s.symbol_entries = [] ∧ s.relocations = []

/-- What re-parsing the written file makes of section `s` (whose payload the
writer placed at `off`): the same header fields with `sh_size` recomputed from
the payload, position `i`, and the late-init fields re-derived. -/
def reFin (i off : Nat) (s : Section) : Section :=
  { s with sh_offset := off, sh_size := s.binSize, index := i,
           relocated_by := ([] : List Nat) }

/-- What the raw phase of re-parsing the written file makes of section `s`
(payload placed at `off`, position `i`): header fields with `sh_size`
recomputed, payload recovered, late-init fields at their defaults. -/
def rawRe (i off : Nat) (s : Section) : Section :=
  { s with sh_offset := off, sh_size := s.binSize, index := i,
           name := ([] : List Nat), symbol_entries := ([] : List Symbol),
           relocations := ([] : List Relocation),
           relocated_by := ([] : List Nat) }

/-- The payload-emission pass of `ElfFile.write` (the ELF header is 52 bytes,
so the cursor starts at 52). -/
def wbody (E : ElfFile) : List Section × List Nat × Nat :=
  writeBody E.sections 52

/-- The ELF header as `ElfFile.write` rewrites it: section count and section
header table offset recomputed. -/
def hdrW (E : ElfFile) : ElfHeader :=
  { E.elf_header with e_shnum := E.sections.length,
                      e_shoff := (wbody E).2.2 + padLen (wbody E).2.2 4 }

/-- A plausible 32-bit big-endian MIPS ET_REL header for the C8
counterexample. -/
def c8Hdr : ElfHeader :=
  { e_ident := [0x7f, 0x45, 0x4c, 0x46, 1, 2, 1, 0, 0, 0, 0, 0, 0, 0, 0, 0],
    e_type := 1, e_machine := 8, e_version := 1, e_entry := 0, e_phoff := 0,
    e_shoff := 52, e_flags := 0, e_ehsize := 52, e_phentsize := 0,
    e_phnum := 0, e_shentsize := 40, e_shstrndx := 3, e_shnum := 0 }

def c8Sec : Section :=
  { sh_name := 0, sh_type := SHT_NULL, sh_flags := 0, sh_addr := 0,
    sh_offset := 0, sh_size := 0, sh_link := 0, sh_info := 0,
    sh_addralign := 0, sh_entsize := 0, data := [], index := 0 }

/-- A model with 65536 sections: the extended-section-count convention lets
the parser accept such an object (`e_shnum = 0`, count in the null section's
`sh_size`), but `write` packs `e_shnum = len(sections)` into a 2-byte field,
which raises `struct.error` — after the output file has been truncated. -/
def c8BigElf : ElfFile :=
  { elf_header := c8Hdr, sections := List.replicate 65536 c8Sec,
    symtabIdx := 0 }

/-! ## Supporting lemmas -/

theorem sliceL_length (l : List Nat) (off len : Nat) :
    (sliceL l off len).length = min len (l.length - off) := by
  simp [sliceL]

theorem mapM_some_of_pointwise {α β : Type} (f : α → Option β) :
    ∀ (l : List α) (out : List β), l.length = out.length →
    (∀ (i : Nat) a b, l[i]? = some a → out[i]? = some b → f a = some b) →
    l.mapM f = some out := by
  intro l
  induction l with
  | nil =>
    intro out hlen _
    cases out with
    | nil => rfl
    | cons b bs => simp at hlen
  | cons a as ih =>
    intro out hlen hpt
    cases out with
    | nil => simp at hlen
    | cons b bs =>
      have h0 : f a = some b := hpt 0 a b (by simp) (by simp)
      have hrest : as.mapM f = some bs := by
        refine ih bs (by simpa using hlen) ?_
        intro i x y hx hy
        exact hpt (i + 1) x y (by simpa using hx) (by simpa using hy)
      rw [List.mapM_cons, h0, hrest]
      rfl

theorem mapM_pointwise_inv {α β : Type} (f : α → Option β) :
    ∀ (l : List α) (out : List β), l.mapM f = some out →
    out.length = l.length ∧
    (∀ (i : Nat) a, l[i]? = some a → ∃ b, out[i]? = some b ∧ f a = some b) := by
  intro l
  induction l with
  | nil =>
    intro out h
    rw [List.mapM_nil] at h
    injection h with h
    subst h
    exact ⟨rfl, fun i a ha => by simp at ha⟩
  | cons a as ih =>
    intro out h
    rw [List.mapM_cons] at h
    cases hfa : f a with
    | none => rw [hfa] at h; simp at h
    | some b =>
      rw [hfa] at h
      cases hrest : as.mapM f with
      | none => rw [hrest] at h; simp at h
      | some bs =>
        rw [hrest] at h
        have hout : b :: bs = out := by simpa using h
        subst hout
        obtain ⟨hl, hp⟩ := ih bs hrest
        refine ⟨by simpa using hl, ?_⟩
        intro i x hx
        cases i with
        | zero =>
          refine ⟨b, by simp, ?_⟩
          simp only [List.getElem?_cons_zero, Option.some.injEq] at hx
          rw [hx] at hfa
          exact hfa
        | succ j =>
          obtain ⟨y, hy, hfy⟩ := hp j x (by simpa using hx)
          exact ⟨y, by simpa using hy, hfy⟩

theorem flatten_uniform_get (w : Nat) :
    ∀ (l : List (List Nat)), (∀ x ∈ l, x.length = w) →
    (∀ i x, l[i]? = some x → sliceL l.flatten (i * w) w = x) ∧
    l.flatten.length = w * l.length := by
  intro l
  induction l with
  | nil =>
    intro hu
    refine ⟨fun i x hx => by simp at hx, by simp⟩
  | cons a as ih =>
    intro hu
    have ha : a.length = w := hu a (by simp)
    obtain ⟨ihg, ihl⟩ := ih (fun x hx => hu x (by simp [hx]))
    constructor
    · intro i x hx
      cases i with
      | zero =>
        simp only [List.getElem?_cons_zero, Option.some.injEq] at hx
        subst hx
        simp only [List.flatten_cons, Nat.zero_mul, sliceL, List.drop_zero]
        rw [List.take_left' ha]
      | succ j =>
        have hxj : as[j]? = some x := by simpa using hx
        have := ihg j x hxj
        simp only [List.flatten_cons, sliceL] at this ⊢
        have harith : (j + 1) * w = a.length + j * w := by
          rw [ha]; ring
        rw [harith, List.drop_append]
        exact this
    · simp [List.flatten_cons, ihl, ha]
      ring

theorem ehdrParse_inv (d : List Nat) (hdr : ElfHeader)
    (h : ElfHeader.parse d = some hdr) :
    d.length = 52 ∧ hdr.e_ident = d.take 16 ∧
    hdr.e_ident.getD 4 0 = 1 ∧ hdr.e_ident.getD 5 0 = 2 ∧
    hdr.e_type = 1 ∧ hdr.e_machine = 8 ∧ hdr.e_phoff = 0 ∧
    hdr.e_shoff ≠ 0 ∧ hdr.e_shstrndx ≠ 0 := by
  unfold ElfHeader.parse at h
  split at h
  · rename_i hlen
    dsimp only at h
    split at h
    · rename_i hcond
      injection h with h
      subst h
      exact ⟨hlen, rfl, hcond.1, hcond.2.1, hcond.2.2.1, hcond.2.2.2.1,
        hcond.2.2.2.2.1, hcond.2.2.2.2.2.1, hcond.2.2.2.2.2.2⟩
    · exact absurd h (by simp)
  · exact absurd h (by simp)

theorem secParse_inv (header data : List Nat) (i : Nat) (s : Section)
    (h : Section.parse header data i = some s) :
    header.length = 40 ∧ s.sh_flags &&& SHF_LINK_ORDER = 0 ∧
    (s.sh_entsize ≠ 0 → s.sh_size % s.sh_entsize = 0) ∧
    (s.sh_type = SHT_NOBITS → s.data = []) ∧ s.index = i ∧
    s.name = [] ∧ s.symbol_entries = [] ∧ s.relocations = [] ∧
    s.relocated_by = [] := by
  unfold Section.parse at h
  split at h
  · rename_i hlen
    dsimp only at h
    split at h
    · exact absurd h (by simp)
    · rename_i hflag
      split at h
      · exact absurd h (by simp)
      · rename_i hmod
        injection h with h
        subst h
        refine ⟨hlen, by simpa using hflag, ?_, ?_, rfl, rfl, rfl, rfl, rfl⟩
        · intro hent
          by_contra hx
          exact hmod ⟨hent, hx⟩
        · intro hnb
          dsimp only at hnb ⊢
          rw [if_pos hnb]
  · exact absurd h (by simp)

theorem lateInit_inv (secs : List Section) (t s1 : Section)
    (h : Section.lateInit secs t = some s1) :
    (t.sh_type = SHT_SYMTAB →
       ∃ es, symsOf secs t = some es ∧ s1 = { t with symbol_entries := es }) ∧
    (t.sh_type ≠ SHT_SYMTAB → t.isRel = true →
       (∃ u, secs[t.sh_info]? = some u) ∧
       ∃ es, relsOf t = some es ∧ s1 = { t with relocations := es }) ∧
    (t.sh_type ≠ SHT_SYMTAB → t.isRel = false → s1 = t) := by
  unfold Section.lateInit at h
  split at h
  · rename_i hty
    cases hse : symsOf secs t with
    | none => rw [hse] at h; simp at h
    | some es =>
      rw [hse] at h
      simp only [Option.map_some'] at h
      injection h with h
      refine ⟨fun _ => ⟨es, rfl, h.symm⟩, fun hne _ => absurd hty hne,
        fun hne _ => absurd hty hne⟩
  · rename_i hty
    split at h
    · rename_i hrel
      split at h
      · exact absurd h (by simp)
      · rename_i u hu
        cases hre : relsOf t with
        | none => rw [hre] at h; simp at h
        | some es =>
          rw [hre] at h
          simp only [Option.map_some'] at h
          injection h with h
          refine ⟨fun hsy => absurd hsy hty, ?_, ?_⟩
          · intro _ _
            exact ⟨⟨u, hu⟩, es, rfl, h.symm⟩
          · intro _ hnr
            rw [hrel] at hnr
            exact absurd hnr (by simp)
    · rename_i hnrel
      injection h with h
      refine ⟨fun hsy => absurd hsy hty, ?_, fun _ _ => h.symm⟩
      intro _ hr
      rw [hr] at hnrel
      exact absurd rfl hnrel

theorem relsOf_congr (s s' : Section)
    (hty : s'.sh_type = s.sh_type) (he : s'.sh_entsize = s.sh_entsize)
    (hsz : s'.sh_size = s.sh_size) (hd : s'.data = s.data) :
    relsOf s' = relsOf s := by
  unfold relsOf
  rw [hty, he, hsz, hd]

theorem symsOf_congr (secs secs' : List Section) (s s' : Section)
    (hpt : ∀ (j : Nat), (secs'[j]?).map (fun t => (t.sh_type, t.data)) =
      (secs[j]?).map (fun t => (t.sh_type, t.data)))
    (he : s'.sh_entsize = s.sh_entsize) (hsz : s'.sh_size = s.sh_size)
    (hd : s'.data = s.data) (hl : s'.sh_link = s.sh_link) :
    symsOf secs' s' = symsOf secs s := by
  unfold symsOf
  rw [he, hsz, hd, hl]
  have hj := hpt s.sh_link
  cases hx : secs[s.sh_link]? with
  | none =>
    rw [hx] at hj
    simp only [Option.map_none'] at hj
    rw [Option.map_eq_none'] at hj
    rw [hj]
  | some u =>
    rw [hx] at hj
    cases hy : secs'[s.sh_link]? with
    | none => rw [hy] at hj; simp at hj
    | some u' =>
      rw [hy] at hj
      simp only [Option.map_some', Option.some.injEq, Prod.mk.injEq] at hj
      dsimp only
      rw [hj.1, hj.2]

theorem findIdx_map_congr {α β : Type} (f : α → β) (p : β → Bool) :
    ∀ (l l' : List α), l.map f = l'.map f →
    l.findIdx (fun x => p (f x)) = l'.findIdx (fun x => p (f x)) := by
  intro l
  induction l with
  | nil =>
    intro l' hm
    have : l' = [] := by
      cases l' with
      | nil => rfl
      | cons b bs => simp at hm
    subst this
    rfl
  | cons a as ih =>
    intro l' hm
    cases l' with
    | nil => simp at hm
    | cons b bs =>
      simp only [List.map_cons, List.cons.injEq] at hm
      rw [List.findIdx_cons, List.findIdx_cons, hm.1, ih bs hm.2]

theorem parseRawSections_inv (O : List Nat) (hdr : ElfHeader)
    (secs0 : List Section) (h : parseRawSections O hdr = some secs0) :
    secs0 ≠ [] ∧
    (∀ (i : Nat) s, secs0[i]? = some s →
      Section.parse
        (sliceL O (hdr.e_shoff + i * hdr.e_shentsize) hdr.e_shentsize) O i =
        some s) := by
  unfold parseRawSections at h
  split at h
  · exact absurd h (by simp)
  · rename_i nullSec hnull
    dsimp only at h
    cases hrest : (List.range' 1
        ((if hdr.e_shnum ≠ 0 then hdr.e_shnum else nullSec.sh_size) - 1)).mapM
        (fun i => Section.parse
          (sliceL O (hdr.e_shoff + i * hdr.e_shentsize) hdr.e_shentsize) O i)
        with
    | none => rw [hrest] at h; simp at h
    | some rest =>
      rw [hrest] at h
      simp only [Option.map_some'] at h
      injection h with h
      subst h
      obtain ⟨hlen, hpt⟩ := mapM_pointwise_inv _ _ _ hrest
      refine ⟨by simp, ?_⟩
      intro i s hs
      cases i with
      | zero =>
        simp only [List.getElem?_cons_zero, Option.some.injEq] at hs
        subst hs
        simpa using hnull
      | succ j =>
        simp only [List.getElem?_cons_succ] at hs
        have hjlen : j < rest.length := by
          by_contra hc
          push_neg at hc
          rw [List.getElem?_eq_none hc] at hs
          simp at hs
        have hr : (List.range' 1
            ((if hdr.e_shnum ≠ 0 then hdr.e_shnum else nullSec.sh_size) - 1))[j]? =
            some (1 + j) := by
          rw [List.getElem?_range' 1 1 (by rw [hlen] at hjlen; simpa using hjlen)]
          simp
        obtain ⟨b, hb, hfb⟩ := hpt j (1 + j) hr
        have hbs : b = s := by
          rw [hs] at hb
          exact (Option.some.inj hb).symm
        subst hbs
        have h1j : 1 + j = j + 1 := by omega
        rw [h1j] at hfb
        exact hfb

theorem elfParse_inv (O : List Nat) (E : ElfFile)
    (h : ElfFile.parse O = some E) :
    ∃ hdr secs0 secs1 shstr,
      O.take 4 = elfMagic ∧
      ElfHeader.parse (O.take 52) = some hdr ∧
      parseRawSections O hdr = some secs0 ∧
      (secs0.filter (fun s => s.sh_type == SHT_SYMTAB)).length = 1 ∧
      secs0[hdr.e_shstrndx]? = some shstr ∧
      secs0.mapM (fun s =>
        if shstr.sh_type = SHT_STRTAB then
          match lookupStrData shstr.data s.sh_name with
          | none => none
          | some nm => Section.lateInit secs0 { s with name := nm }
        else none) = some secs1 ∧
      E = { elf_header := hdr,
            sections := secs1.map (fun s =>
              { s with relocated_by := relocatedByList secs1 s.index }),
            symtabIdx := secs0.findIdx (fun s => s.sh_type == SHT_SYMTAB) } := by
  unfold ElfFile.parse at h
  split at h
  · rename_i hmagic
    split at h
    · exact absurd h (by simp)
    · rename_i hdr hhdr
      split at h
      · exact absurd h (by simp)
      · rename_i secs0 hraw
        split at h
        · rename_i hcount
          split at h
          · exact absurd h (by simp)
          · rename_i shstr hstr
            split at h
            · exact absurd h (by simp)
            · rename_i secs1 hmap
              injection h with h
              exact ⟨hdr, secs0, secs1, shstr, hmagic, hhdr, hraw, hcount,
                hstr, hmap, h.symm⟩
        · exact absurd h (by simp)
  · exact absurd h (by simp)

theorem header_to_bin_length (s : Section) : s.header_to_bin.length = 40 := by
  simp [Section.header_to_bin, beBytes_length]

theorem ehdr_to_bin_length (h : ElfHeader) (hid : h.e_ident.length = 16) :
    h.to_bin.length = 52 := by
  simp [ElfHeader.to_bin, beBytes_length, hid]

theorem ehdr_parse_to_bin (h : ElfHeader)
    (hid : h.e_ident.length = 16)
    (hcls : h.e_ident.getD 4 0 = 1) (hbe : h.e_ident.getD 5 0 = 2)
    (het : h.e_type = 1) (hem : h.e_machine = 8) (hph : h.e_phoff = 0)
    (hso : h.e_shoff ≠ 0) (hsx : h.e_shstrndx ≠ 0)
    (hok : h.binOK = true) :
    ElfHeader.parse h.to_bin = some h := by
  unfold ElfHeader.binOK at hok
  simp only [fitsU, Bool.and_eq_true, decide_eq_true_eq] at hok
  obtain ⟨⟨⟨⟨⟨⟨⟨⟨⟨⟨⟨⟨f1, f2⟩, f3⟩, f4⟩, f5⟩, f6⟩, f7⟩, f8⟩, f9⟩, f10⟩, f11⟩,
    f12⟩, f13⟩ := hok
  unfold ElfHeader.parse
  rw [if_pos (ehdr_to_bin_length h hid)]
  unfold ElfHeader.to_bin
  simp only [List.append_assoc]
  rw [List.take_left' hid, List.drop_left' hid]
  simp only [takeU_beBytes, takeU_beBytes_nil,
    Nat.mod_eq_of_lt f1, Nat.mod_eq_of_lt f2, Nat.mod_eq_of_lt f3,
    Nat.mod_eq_of_lt f4, Nat.mod_eq_of_lt f5, Nat.mod_eq_of_lt f6,
    Nat.mod_eq_of_lt f7, Nat.mod_eq_of_lt f8, Nat.mod_eq_of_lt f9,
    Nat.mod_eq_of_lt f10, Nat.mod_eq_of_lt f11, Nat.mod_eq_of_lt f12,
    Nat.mod_eq_of_lt f13]
  rw [if_pos (by exact ⟨hcls, hbe, het, hem, hph, hso, hsx⟩)]

theorem mkShdr_length (nm ty fl ad off sz lk inf al ent : Nat) :
    (mkShdr nm ty fl ad off sz lk inf al ent).length = 40 := by
  simp [mkShdr, beBytes_length]

/-- Unpacking a packed section header recovers the fields (all in range) and
slices the payload. -/
theorem Section.parse_pack (nm ty fl ad off sz lk inf al ent : Nat)
    (data : List Nat) (idx : Nat)
    (h1 : nm < 256 ^ 4) (h2 : ty < 256 ^ 4) (h3 : fl < 256 ^ 4)
    (h4 : ad < 256 ^ 4) (h5 : off < 256 ^ 4) (h6 : sz < 256 ^ 4)
    (h7 : lk < 256 ^ 4) (h8 : inf < 256 ^ 4) (h9 : al < 256 ^ 4)
    (h10 : ent < 256 ^ 4)
    (hflag : fl &&& SHF_LINK_ORDER = 0) (hdiv : ent = 0 ∨ sz % ent = 0) :
    Section.parse (mkShdr nm ty fl ad off sz lk inf al ent) data idx =
      some { sh_name := nm, sh_type := ty, sh_flags := fl, sh_addr := ad,
             sh_offset := off, sh_size := sz, sh_link := lk, sh_info := inf,
             sh_addralign := al, sh_entsize := ent,
             data := if ty = SHT_NOBITS then [] else sliceL data off sz,
             index := idx } := by
  unfold Section.parse
  rw [if_pos (mkShdr_length nm ty fl ad off sz lk inf al ent)]
  unfold mkShdr
  simp only [List.append_assoc, takeU_beBytes, takeU_beBytes_nil,
    Nat.mod_eq_of_lt h1, Nat.mod_eq_of_lt h2,
    Nat.mod_eq_of_lt h3, Nat.mod_eq_of_lt h4, Nat.mod_eq_of_lt h5,
    Nat.mod_eq_of_lt h6, Nat.mod_eq_of_lt h7, Nat.mod_eq_of_lt h8,
    Nat.mod_eq_of_lt h9, Nat.mod_eq_of_lt h10]
  rw [if_neg (by simp [hflag]), if_neg (by rcases hdiv with h | h <;> simp [h])]

theorem mem_getElem_opt {α : Type} (l : List α) (a : α) (h : a ∈ l) :
    ∃ i : Nat, l[i]? = some a := by
  obtain ⟨i, hi, hieq⟩ := List.getElem_of_mem h
  exact ⟨i, by rw [List.getElem?_eq_getElem hi, hieq]⟩

theorem getElem_opt_lt {α : Type} (l : List α) (i : Nat) (a : α)
    (h : l[i]? = some a) : i < l.length := by
  by_contra hc
  push_neg at hc
  rw [List.getElem?_eq_none hc] at h
  simp at h

theorem mapM_exists_of_some {α β : Type} (f : α → Option β) :
    ∀ (l : List α), (∀ a ∈ l, ∃ b, f a = some b) → ∃ out, l.mapM f = some out
  | [], _ => ⟨[], rfl⟩
  | a :: as, h => by
    obtain ⟨b, hb⟩ := h a (by simp)
    obtain ⟨out, hout⟩ := mapM_exists_of_some f as
      (fun x hx => h x (by simp [hx]))
    exact ⟨b :: out, by rw [List.mapM_cons, hb, hout]; rfl⟩

theorem write_inv (E : ElfFile) (W : List Nat)
    (hid : E.elf_header.e_ident.length = 16)
    (hw : ElfFile.write E = some W) :
    (hdrW E).binOK = true ∧ (wbody E).1.all Section.hdrOK = true ∧
    W = (hdrW E).to_bin ++ (wbody E).2.1 ++
        List.replicate (padLen (wbody E).2.2 4) 0 ++
        ((wbody E).1.map Section.header_to_bin).flatten := by
  unfold ElfFile.write at hw
  dsimp only at hw
  rw [show ({ E.elf_header with e_shnum := E.sections.length } :
      ElfHeader).to_bin.length = 52 from ehdr_to_bin_length _ hid] at hw
  split at hw
  · rename_i hcond
    injection hw with hw
    exact ⟨hcond.1, hcond.2, hw.symm⟩
  · exact Option.noConfusion hw

/-- Everything `ElfFile.parse` guarantees about its result, given the two
validity hypotheses of the claim (unclamped payloads and empty null
sections). -/
theorem parse_good (O : List Nat) (E : ElfFile)
    (h : ElfFile.parse O = some E)
    (hunc : ∀ s ∈ E.sections, s.sh_type ≠ SHT_NOBITS →
      s.data.length = s.sh_size)
    (hnul : ∀ s ∈ E.sections, s.sh_type = SHT_NULL → s.data = []) :
    FileGood E := by
  obtain ⟨hdr, secs0, secs1, shstr, hmagic, hhdr, hraw, hcount, hstr, hmap,
    hE⟩ := elfParse_inv O E h
  obtain ⟨h52, hident, hcls, hbe, het, hem, hph, hso, hsx⟩ :=
    ehdrParse_inv _ _ hhdr
  obtain ⟨hne0, hraws⟩ := parseRawSections_inv O hdr secs0 hraw
  obtain ⟨hlen1, hmpt⟩ := mapM_pointwise_inv _ _ _ hmap
  have hshty : shstr.sh_type = SHT_STRTAB := by
    cases hsecs0 : secs0 with
    | nil => exact absurd hsecs0 hne0
    | cons a as =>
      obtain ⟨b, _, hfb⟩ := hmpt 0 a (by rw [hsecs0]; simp)
      by_contra hns
      rw [if_neg hns] at hfb
      simp at hfb
  subst hE
  dsimp only at hunc hnul ⊢
  have hEp : ∀ (i : Nat) s,
      (secs1.map (fun s =>
        { s with relocated_by := relocatedByList secs1 s.index }))[i]? =
        some s →
      ∃ s0 nm, secs0[i]? = some s0 ∧
        lookupStrData shstr.data s0.sh_name = some nm ∧
        s.sh_type = s0.sh_type ∧ s.data = s0.data ∧
        s.sh_name = s0.sh_name ∧ s.name = nm ∧
        s.sh_flags &&& SHF_LINK_ORDER = 0 ∧
        (s.sh_entsize ≠ 0 → s.sh_size % s.sh_entsize = 0) ∧
        (s.sh_type = SHT_NOBITS → s.data = []) ∧
        (s.sh_type = SHT_SYMTAB →
          symsOf secs0 s = some s.symbol_entries ∧ s.relocations = []) ∧
        (s.sh_type ≠ SHT_SYMTAB → s.isRel = true →
          s.sh_info < secs0.length ∧ relsOf s = some s.relocations ∧
          s.symbol_entries = []) ∧
        (s.sh_type ≠ SHT_SYMTAB → s.isRel = false →
          s.symbol_entries = [] ∧ s.relocations = []) := by
    intro i s hq
    rw [List.getElem?_map] at hq
    cases h1 : secs1[i]? with
    | none => rw [h1] at hq; simp at hq
    | some s1 =>
      rw [h1] at hq
      simp only [Option.map_some', Option.some.injEq] at hq
      have hi0 : i < secs0.length := by
        have := getElem_opt_lt _ _ _ h1
        omega
      have hs0 : secs0[i]? = some secs0[i] := List.getElem?_eq_getElem hi0
      obtain ⟨b, hb, hfb⟩ := hmpt i _ hs0
      have hbs1 : b = s1 := by
        rw [h1] at hb
        exact (Option.some.inj hb).symm
      subst hbs1
      rw [if_pos hshty] at hfb
      cases hlk : lookupStrData shstr.data (secs0[i]).sh_name with
      | none => rw [hlk] at hfb; simp at hfb
      | some nm =>
        rw [hlk] at hfb
        dsimp only at hfb
        obtain ⟨hLsym, hLrel, hLplain⟩ := lateInit_inv secs0 _ _ hfb
        obtain ⟨hh40, hfl, hmod, hnb, hidx, hnm0, hse0, hre0, hrb0⟩ :=
          secParse_inv _ _ _ _ (hraws i _ hs0)
        by_cases hty : (secs0[i]).sh_type = SHT_SYMTAB
        · obtain ⟨es, hes, hs1e⟩ := hLsym hty
          subst hs1e
          subst hq
          exact ⟨secs0[i], nm, hs0, hlk, rfl, rfl, rfl, rfl, hfl, hmod, hnb,
            fun _ => ⟨hes, hre0⟩,
            fun hne _ => absurd hty hne,
            fun hne _ => absurd hty hne⟩
        · by_cases hrel : (Section.isRel { secs0[i] with name := nm }) = true
          · obtain ⟨⟨u, hu⟩, es, hes, hs1e⟩ := hLrel hty hrel
            subst hs1e
            subst hq
            refine ⟨secs0[i], nm, hs0, hlk, rfl, rfl, rfl, rfl, hfl, hmod,
              hnb, fun hx => absurd hx hty, ?_, ?_⟩
            · intro _ _
              exact ⟨getElem_opt_lt _ _ _ hu, hes, hse0⟩
            · intro _ hnr
              have hx : Section.isRel { secs0[i] with name := nm } = false :=
                hnr
              rw [hx] at hrel
              exact Bool.noConfusion hrel
          · have hs1e := hLplain hty (by
              cases hx : Section.isRel { secs0[i] with name := nm }
              · rfl
              · exact absurd hx hrel)
            subst hs1e
            subst hq
            refine ⟨secs0[i], nm, hs0, hlk, rfl, rfl, rfl, rfl, hfl, hmod,
              hnb, fun hx => absurd hx hty, ?_, fun _ _ => ⟨hse0, hre0⟩⟩
            intro _ hr
            exact absurd
              (show Section.isRel { secs0[i] with name := nm } = true from hr)
              hrel
  have hptE : ∀ (j : Nat),
      ((secs1.map (fun s =>
        { s with relocated_by := relocatedByList secs1 s.index }))[j]?).map
        (fun t => (t.sh_type, t.data)) =
      (secs0[j]?).map (fun t => (t.sh_type, t.data)) := by
    intro j
    cases hq : (secs1.map (fun s =>
        { s with relocated_by := relocatedByList secs1 s.index }))[j]? with
    | none =>
      have hj : secs0.length ≤ j := by
        by_contra hc
        push_neg at hc
        have hj1 : j < (secs1.map (fun s =>
            { s with relocated_by := relocatedByList secs1 s.index })).length := by
          rw [List.length_map, hlen1]
          exact hc
        rw [List.getElem?_eq_getElem hj1] at hq
        simp at hq
      rw [List.getElem?_eq_none hj]
    | some s =>
      obtain ⟨s0, nm, hs0, _, hty, hdata, _⟩ := hEp j s hq
      rw [hs0]
      simp [hty, hdata]
  have htymap : ((secs1.map (fun s =>
      { s with relocated_by := relocatedByList secs1 s.index })).map
        (fun s => s.sh_type)) = secs0.map (fun s => s.sh_type) := by
    apply List.ext_getElem?
    intro j
    rw [List.getElem?_map, List.getElem?_map]
    have hj := congrArg (Option.map Prod.fst) (hptE j)
    simpa [Option.map_map, Function.comp] using hj
  have hlenE : (secs1.map (fun s =>
      { s with relocated_by := relocatedByList secs1 s.index })).length =
      secs0.length := by
    rw [List.length_map, hlen1]
  have hpos0 : 0 < secs0.length := List.length_pos.mpr hne0
  refine ⟨?_, ?_, ?_, ?_, ?_, ?_, ?_, ?_, ?_, ?_, ?_, ?_, ?_, ?_, ?_, ?_, ?_,
    ?_, ?_, ?_, ?_, ?_⟩
  · rw [hident]
    simp [List.length_take, h52]
  · rw [hident, List.take_take, List.take_take]
    simpa using hmagic
  · exact hcls
  · exact hbe
  · exact het
  · exact hem
  · exact hph
  · exact hsx
  · dsimp only
    have h0 : secs0[0]? = some secs0[0] := List.getElem?_eq_getElem hpos0
    have hh0 := (secParse_inv _ _ _ _ (hraws 0 _ h0)).1
    rw [sliceL_length] at hh0
    simp only [Nat.zero_mul, Nat.add_zero] at hh0
    by_cases hlen2 : 2 ≤ secs0.length
    · left
      have h1 : secs0[1]? = some secs0[1] :=
        List.getElem?_eq_getElem (by omega)
      have hh1 := (secParse_inv _ _ _ _ (hraws 1 _ h1)).1
      rw [sliceL_length] at hh1
      simp only [Nat.one_mul] at hh1
      omega
    · right
      refine ⟨?_, by omega⟩
      rw [hlenE]
      omega
  · dsimp only
    intro hx
    have h0 := congrArg List.length hx
    rw [hlenE] at h0
    simp only [List.length_nil] at h0
    omega
  · dsimp only
    have hA : List.countP (fun s => s.sh_type == SHT_SYMTAB)
        (secs1.map (fun s =>
          { s with relocated_by := relocatedByList secs1 s.index })) =
        List.countP (fun s => s.sh_type == SHT_SYMTAB) secs0 := by
      have hc := congrArg (List.countP (fun ty => ty == SHT_SYMTAB)) htymap
      rw [List.countP_map, List.countP_map] at hc
      simpa [Function.comp] using hc
    rw [← List.countP_eq_length_filter] at hcount ⊢
    rw [hA]
    exact hcount
  · exact (findIdx_map_congr (fun s => s.sh_type)
      (fun ty => ty == SHT_SYMTAB) secs0 _ htymap.symm)
  · have hi : hdr.e_shstrndx < secs0.length := getElem_opt_lt _ _ _ hstr
    have hiA : hdr.e_shstrndx < (secs1.map (fun s =>
        { s with relocated_by := relocatedByList secs1 s.index })).length := by
      rw [hlenE]
      exact hi
    have hq := List.getElem?_eq_getElem hiA
    obtain ⟨s0, nm, hs0, _, hty, _⟩ := hEp _ _ hq
    have hs0e : s0 = shstr := by
      rw [hstr] at hs0
      exact (Option.some.inj hs0).symm
    exact ⟨_, hq, by rw [hty, hs0e]; exact hshty⟩
  · intro s hs
    obtain ⟨i, hq⟩ := mem_getElem_opt _ _ hs
    obtain ⟨s0, nm, _, _, _, _, _, _, hfl, _⟩ := hEp i s hq
    exact hfl
  · intro s hs he
    obtain ⟨i, hq⟩ := mem_getElem_opt _ _ hs
    obtain ⟨s0, nm, _, _, _, _, _, _, _, hmod, _⟩ := hEp i s hq
    exact hmod he
  · intro s hs ht
    obtain ⟨i, hq⟩ := mem_getElem_opt _ _ hs
    obtain ⟨s0, nm, _, _, _, _, _, _, _, _, hnb, _⟩ := hEp i s hq
    exact hnb ht
  · exact hnul
  · exact hunc
  · intro s hs t ht
    obtain ⟨i, hq⟩ := mem_getElem_opt _ _ hs
    obtain ⟨s0, nm, hs0, hlk, _, _, hshn, hnm, _⟩ := hEp i s hq
    obtain ⟨t0, nm2, ht0, _, _, htdata, _⟩ := hEp _ _ ht
    have ht0e : t0 = shstr := by
      rw [hstr] at ht0
      exact (Option.some.inj ht0).symm
    rw [htdata, ht0e, hshn, hnm]
    exact hlk
  · intro s hs hty
    obtain ⟨i, hq⟩ := mem_getElem_opt _ _ hs
    obtain ⟨s0, nm, _, _, _, _, _, _, _, _, _, hsym, _⟩ := hEp i s hq
    obtain ⟨hsyms, hrel0⟩ := hsym hty
    refine ⟨?_, hrel0⟩
    rw [symsOf_congr secs0 _ s s hptE rfl rfl rfl rfl]
    exact hsyms
  · intro s hs hrel
    obtain ⟨i, hq⟩ := mem_getElem_opt _ _ hs
    obtain ⟨s0, nm, _, _, _, _, _, _, _, _, _, _, hrelc, _⟩ := hEp i s hq
    have hty : s.sh_type ≠ SHT_SYMTAB := by
      intro hx
      simp [Section.isRel, hx, SHT_SYMTAB, SHT_REL, SHT_RELA] at hrel
    obtain ⟨hlt, hres, hse⟩ := hrelc hty hrel
    refine ⟨by rw [hlenE]; exact hlt, hres, hse⟩
  · intro s hs hty hnr
    obtain ⟨i, hq⟩ := mem_getElem_opt _ _ hs
    obtain ⟨s0, nm, _, _, _, _, _, _, _, _, _, _, _, hplainc⟩ := hEp i s hq
    exact hplainc hty hnr

theorem writeBody_spec :
    ∀ (secs : List Section) (idx : Nat),
      (writeBody secs idx).1.length = secs.length ∧
      (writeBody secs idx).2.2 = idx + (writeBody secs idx).2.1.length ∧
      (∀ (i : Nat) s, secs[i]? = some s →
        ∃ off, (writeBody secs idx).1[i]? = some { s with sh_offset := off } ∧
          (skipPayload s = true → off = s.sh_offset) ∧
          (skipPayload s = false →
            idx ≤ off ∧
            off + s.data.length ≤ (writeBody secs idx).2.2 ∧
            ∀ tail : List Nat,
              (((writeBody secs idx).2.1 ++ tail).drop (off - idx)).take
                s.data.length = s.data))
  | [], idx => by
    refine ⟨rfl, by simp [writeBody], ?_⟩
    intro i s h
    simp at h
  | s0 :: rest, idx => by
    by_cases hskip : skipPayload s0 = true
    · obtain ⟨ihl, ihc, ihp⟩ := writeBody_spec rest idx
      unfold writeBody
      rw [if_pos hskip]
      dsimp only
      refine ⟨by simp [ihl], by simpa using ihc, ?_⟩
      intro i s h
      cases i with
      | zero =>
        simp only [List.getElem?_cons_zero, Option.some.injEq] at h
        subst h
        refine ⟨s0.sh_offset, by simp, fun _ => rfl,
          fun hns => by rw [hns] at hskip; exact Bool.noConfusion hskip⟩
      | succ j =>
        simp only [List.getElem?_cons_succ] at h
        obtain ⟨off, hget, hsk, hns⟩ := ihp j s h
        exact ⟨off, by simpa using hget, hsk, hns⟩
    · obtain ⟨ihl, ihc, ihp⟩ :=
        writeBody_spec rest (idx + padLen idx s0.sh_addralign + s0.data.length)
      unfold writeBody
      rw [if_neg hskip]
      dsimp only
      have hcur :
          (writeBody rest
            (idx + padLen idx s0.sh_addralign + s0.data.length)).2.2 =
          idx + (List.replicate (padLen idx s0.sh_addralign) 0 ++ s0.data ++
            (writeBody rest
              (idx + padLen idx s0.sh_addralign + s0.data.length)).2.1).length := by
        rw [ihc]
        simp [List.length_append, List.length_replicate]
        omega
      refine ⟨by simp [ihl], by simpa using hcur, ?_⟩
      intro i s h
      cases i with
      | zero =>
        simp only [List.getElem?_cons_zero, Option.some.injEq] at h
        subst h
        refine ⟨idx + padLen idx s0.sh_addralign, by simp,
          fun hsk => absurd hsk hskip,
          fun _ => ⟨by omega, ?_, ?_⟩⟩
        · rw [ihc]
          omega
        · intro tail
          have hp : idx + padLen idx s0.sh_addralign - idx =
              (List.replicate (padLen idx s0.sh_addralign) (0 : Nat)).length := by
            simp [List.length_replicate]
          rw [hp]
          simp only [List.append_assoc]
          rw [List.drop_left, List.take_left' rfl]
      | succ j =>
        simp only [List.getElem?_cons_succ] at h
        obtain ⟨off, hget, hsk, hns⟩ := ihp j s h
        refine ⟨off, by simpa using hget, hsk, fun hnsk => ?_⟩
        obtain ⟨hlo, hhi, hslice⟩ := hns hnsk
        refine ⟨by omega, by omega, ?_⟩
        intro tail
        have harith : off - idx =
            (List.replicate (padLen idx s0.sh_addralign) (0 : Nat)).length +
            (s0.data.length +
              (off - (idx + padLen idx s0.sh_addralign + s0.data.length))) := by
          simp only [List.length_replicate]
          omega
        rw [harith]
        simp only [List.append_assoc]
        rw [List.drop_append, List.drop_append]
        exact hslice tail

theorem symAdj_some {sIdx tIdx adjn : Nat} {fns : List (List Nat)}
    {s s' : Symbol} (h : symAdj sIdx tIdx adjn fns s = some s') :
    s' = claimedAdj tIdx adjn fns s ∧
    (s.st_shndx ≠ SHN_UNDEF → s.st_shndx = sIdx) := by
  unfold symAdj at h
  unfold claimedAdj
  split_ifs at h with h1 h2 <;> split_ifs <;> simp_all <;>
    cases h <;> simp [Symbol.ext_iff] <;> split_ifs <;> simp_all

theorem mergeGoTarget_spec (temps : List (List Nat)) :
    ∀ (syms : List Symbol) (idx : Nat),
    (mergeGoTarget temps syms idx).1 =
      syms.filter (fun s => s.name ∉ temps) ∧
    (mergeGoTarget temps syms idx).2.2 =
      idx + (syms.filter (fun s => s.name ∉ temps)).length ∧
    (∀ o ∈ (mergeGoTarget temps syms idx).2.1, ∀ k, o = some k →
      idx ≤ k ∧ k < (mergeGoTarget temps syms idx).2.2) := by
  intro syms
  induction syms with
  | nil => intro idx; refine ⟨rfl, by simp [mergeGoTarget], by simp [mergeGoTarget]⟩
  | cons s rest ih =>
    intro idx
    by_cases hs : s.name ∈ temps
    · have e1 : mergeGoTarget temps (s :: rest) idx =
        ((mergeGoTarget temps rest idx).1,
         none :: (mergeGoTarget temps rest idx).2.1,
         (mergeGoTarget temps rest idx).2.2) := by
        rw [mergeGoTarget, if_pos hs]
      obtain ⟨ih1, ih2, ih3⟩ := ih idx
      rw [e1]
      refine ⟨by simpa [List.filter_cons, hs] using ih1,
              by simpa [List.filter_cons, hs] using ih2, ?_⟩
      intro o ho k hk
      rcases List.mem_cons.mp ho with rfl | ho'
      · cases hk
      · exact ih3 o ho' k hk
    · have e1 : mergeGoTarget temps (s :: rest) idx =
        (s :: (mergeGoTarget temps rest (idx + 1)).1,
         some idx :: (mergeGoTarget temps rest (idx + 1)).2.1,
         (mergeGoTarget temps rest (idx + 1)).2.2) := by
        rw [mergeGoTarget, if_neg hs]
      obtain ⟨ih1, ih2, ih3⟩ := ih (idx + 1)
      rw [e1]
      dsimp only
      refine ⟨by simpa [List.filter_cons, hs] using ih1, ?_, ?_⟩
      · rw [ih2]
        simp [List.filter_cons, hs]
        omega
      · intro o ho k hk
        rcases List.mem_cons.mp ho with rfl | ho'
        · cases hk
          refine ⟨le_rfl, ?_⟩
          rw [ih2]
          simp [List.filter_cons, hs]
          omega
        · have := ih3 o ho' k hk
          omega

theorem mergeGoSource_spec (sIdx tIdx adjn : Nat) (fns : List (List Nat)) :
    ∀ (syms : List Symbol) (idx : Nat) r,
    mergeGoSource (symAdj sIdx tIdx adjn fns) syms idx = some r →
    r.1 = syms.map (claimedAdj tIdx adjn fns) ∧
    (∀ s ∈ syms, s.st_shndx ≠ SHN_UNDEF → s.st_shndx = sIdx) ∧
    (∀ o ∈ r.2.1, ∀ k, o = some k → idx ≤ k ∧ k < idx + syms.length) := by
  intro syms
  induction syms with
  | nil =>
    intro idx r h
    rw [mergeGoSource] at h
    injection h with h
    subst h
    exact ⟨rfl, by simp, by simp⟩
  | cons s rest ih =>
    intro idx r h
    rw [mergeGoSource] at h
    split at h
    · exact absurd h (by simp)
    · rename_i s' hadj
      split at h
      · exact absurd h (by simp)
      · rename_i r' hrec
        injection h with h
        subst h
        obtain ⟨hmap, hshndx, hidx⟩ := ih (idx + 1) r' hrec
        obtain ⟨hs', hcond⟩ := symAdj_some hadj
        refine ⟨by simp [hmap, hs'], ?_, ?_⟩
        · intro t ht
          rcases List.mem_cons.mp ht with rfl | ht'
          · exact hcond
          · exact hshndx t ht'
        · intro o ho k hk
          rcases List.mem_cons.mp ho with rfl | ho'
          · cases hk
            simp only [List.length_cons]
            omega
          · have hx := hidx o ho' k hk
            simp only [List.length_cons] at hx ⊢
            omega

theorem findIdxZero_append {s : List Nat} (h : 0 ∉ s) (rest : List Nat)
    (i : Nat) :
    (s ++ 0 :: rest).findIdx? (fun b => b = 0) i = some (i + s.length) := by
  induction s generalizing i with
  | nil => simp [List.findIdx?_cons]
  | cons x xs ih =>
    have hx : x ≠ 0 := fun hx => h (by simp [hx])
    have hxs : 0 ∉ xs := fun hm => h (by simp [hm])
    rw [List.cons_append, List.findIdx?_cons, if_neg (by simp [hx]), ih hxs]
    congr 1
    simp
    omega

theorem lookupStrData_append {d s : List Nat} (h : 0 ∉ s) (extra : List Nat) :
    lookupStrData (d ++ s ++ [0] ++ extra) d.length = some s := by
  have hassoc : d ++ s ++ [0] ++ extra = d ++ (s ++ 0 :: extra) := by simp
  unfold lookupStrData findNul
  rw [hassoc, List.drop_left' rfl, findIdxZero_append h extra 0]
  simp only [Nat.zero_add, Option.map_some']
  unfold sliceL
  rw [List.drop_left' rfl, Nat.add_sub_cancel_left, List.take_left' rfl]

/-! ## Claim theorems -/

set_option maxHeartbeats 1000000 in
theorem write_parse (E : ElfFile) (W : List Nat) (hg : FileGood E)
    (hw : ElfFile.write E = some W) :
    ∃ E2, ElfFile.parse W = some E2 ∧ elfView E2 = elfView E := by
  obtain ⟨hbin, hall, hWeq⟩ := write_inv E W hg.ident_len hw
  unfold hdrW at hbin hWeq
  unfold wbody at hbin hall hWeq
  obtain ⟨wl, wc, wp⟩ := writeBody_spec E.sections 52
  have hpos : 0 < E.sections.length := List.length_pos.mpr hg.nonempty
  have hid1 : ({ E.elf_header with
      e_shnum := E.sections.length,
      e_shoff := (writeBody E.sections 52).2.2 +
        padLen (writeBody E.sections 52).2.2 4 } : ElfHeader).e_ident.length
      = 16 := hg.ident_len
  have h52 : ({ E.elf_header with
      e_shnum := E.sections.length,
      e_shoff := (writeBody E.sections 52).2.2 +
        padLen (writeBody E.sections 52).2.2 4 } : ElfHeader).to_bin.length
      = 52 := ehdr_to_bin_length _ hid1
  have hW52 : W.take 52 = ({ E.elf_header with
      e_shnum := E.sections.length,
      e_shoff := (writeBody E.sections 52).2.2 +
        padLen (writeBody E.sections 52).2.2 4 } : ElfHeader).to_bin := by
    rw [hWeq]
    simp only [List.append_assoc]
    exact List.take_left' h52
  have hmagic : W.take 4 = elfMagic := by
    have h1 : W.take 4 = (W.take 52).take 4 := by
      rw [List.take_take]
      norm_num
    rw [h1, hW52]
    unfold ElfHeader.to_bin
    dsimp only
    simp only [List.append_assoc]
    rw [List.take_append_of_le_length (by rw [hg.ident_len]; omega)]
    exact hg.magic4
  have hparseH : ElfHeader.parse (W.take 52) = some ({ E.elf_header with
      e_shnum := E.sections.length,
      e_shoff := (writeBody E.sections 52).2.2 +
        padLen (writeBody E.sections 52).2.2 4 } : ElfHeader) := by
    rw [hW52]
    refine ehdr_parse_to_bin _ hid1 hg.cls32 hg.be2 hg.etype hg.emach
      hg.ephoff ?_ hg.estrndx hbin
    show (writeBody E.sections 52).2.2 + padLen (writeBody E.sections 52).2.2 4 ≠ 0
    rw [wc]
    omega
  obtain ⟨hflatget, hflatlen⟩ :=
    flatten_uniform_get 40 ((writeBody E.sections 52).1.map Section.header_to_bin)
      (by
        intro x hx
        obtain ⟨s, _, hxs⟩ := List.mem_map.mp hx
        rw [← hxs]
        exact header_to_bin_length s)
  have hWdrop52 : W.drop 52 = (writeBody E.sections 52).2.1 ++
      (List.replicate (padLen (writeBody E.sections 52).2.2 4) 0 ++
       ((writeBody E.sections 52).1.map Section.header_to_bin).flatten) := by
    rw [hWeq]
    simp only [List.append_assoc]
    rw [List.drop_left' h52]
  have hWdropSh : W.drop ((writeBody E.sections 52).2.2 +
      padLen (writeBody E.sections 52).2.2 4) =
      ((writeBody E.sections 52).1.map Section.header_to_bin).flatten := by
    rw [hWeq]
    refine List.drop_left' ?_
    simp only [List.length_append, List.length_replicate, h52]
    omega
  have hdrSlice : ∀ (i : Nat) x,
      ((writeBody E.sections 52).1.map Section.header_to_bin)[i]? = some x →
      sliceL W ((writeBody E.sections 52).2.2 +
        padLen (writeBody E.sections 52).2.2 4 + i * 40) 40 = x := by
    intro i x hx
    have h1 := hflatget i x hx
    unfold sliceL at h1 ⊢
    have h2 : W.drop ((writeBody E.sections 52).2.2 +
        padLen (writeBody E.sections 52).2.2 4 + i * 40) =
        (W.drop ((writeBody E.sections 52).2.2 +
          padLen (writeBody E.sections 52).2.2 4)).drop (i * 40) := by
      rw [List.drop_drop]
    rw [h2, hWdropSh]
    exact h1
  have hsecsParse : ∀ (i : Nat) s, E.sections[i]? = some s →
      ∃ off, (writeBody E.sections 52).1[i]? = some { s with sh_offset := off } ∧
        Section.parse (sliceL W ((writeBody E.sections 52).2.2 +
          padLen (writeBody E.sections 52).2.2 4 + i * 40) 40) W i =
          some (rawRe i off s) := by
    intro i s hs
    have hmem : s ∈ E.sections := List.getElem?_mem hs
    obtain ⟨off, hget, hsk, hns⟩ := wp i s hs
    refine ⟨off, hget, ?_⟩
    have hx : ((writeBody E.sections 52).1.map Section.header_to_bin)[i]? =
        some (Section.header_to_bin { s with sh_offset := off }) := by
      rw [List.getElem?_map, hget]
      rfl
    rw [hdrSlice i _ hx]
    have hOK : Section.hdrOK { s with sh_offset := off } = true :=
      List.all_eq_true.mp hall _ (List.getElem?_mem hget)
    unfold Section.hdrOK at hOK
    simp only [fitsU, Bool.and_eq_true, decide_eq_true_eq] at hOK
    obtain ⟨⟨⟨⟨⟨⟨⟨⟨⟨g1, g2⟩, g3⟩, g4⟩, g5⟩, g6⟩, g7⟩, g8⟩, g9⟩, g10⟩ := hOK
    have hflag : s.sh_flags &&& SHF_LINK_ORDER = 0 := hg.flags s hmem
    have hdiv : s.sh_entsize = 0 ∨ s.binSize % s.sh_entsize = 0 := by
      by_cases he : s.sh_entsize = 0
      · exact Or.inl he
      · right
        by_cases hnb : s.sh_type = SHT_NOBITS
        · unfold Section.binSize
          rw [if_pos hnb]
          exact hg.szmod s hmem he
        · unfold Section.binSize
          rw [if_neg hnb, hg.unclamped s hmem hnb]
          exact hg.szmod s hmem he
    have hdata : (if s.sh_type = SHT_NOBITS then []
        else sliceL W off s.binSize) = s.data := by
      by_cases hnb : s.sh_type = SHT_NOBITS
      · rw [if_pos hnb]
        exact (hg.nobits s hmem hnb).symm
      · rw [if_neg hnb]
        have hbs : s.binSize = s.data.length := by
          unfold Section.binSize
          rw [if_neg hnb]
        rw [hbs]
        by_cases hskip : skipPayload s = true
        · have hnull : s.sh_type = SHT_NULL := by
            unfold skipPayload at hskip
            simp only [Bool.or_eq_true, beq_iff_eq] at hskip
            rcases hskip with hh | hh
            · exact absurd hh hnb
            · exact hh
          rw [hg.nullsec s hmem hnull]
          simp [sliceL]
        · obtain ⟨hlo, hhi, hslice⟩ := hns (by
            revert hskip
            cases skipPayload s
            · intro _
              rfl
            · intro hc
              exact absurd rfl hc)
          unfold sliceL
          have hdd : W.drop off = (W.drop 52).drop (off - 52) := by
            rw [List.drop_drop]
            congr 1
            omega
          rw [hdd, hWdrop52]
          exact hslice _
    have hpp := Section.parse_pack s.sh_name s.sh_type s.sh_flags s.sh_addr
      off s.binSize s.sh_link s.sh_info s.sh_addralign s.sh_entsize W i
      g1 g2 g3 g4 g5 g6 g7 g8 g9 g10 hflag hdiv
    rw [hdata] at hpp
    rw [show Section.header_to_bin { s with sh_offset := off } =
        mkShdr s.sh_name s.sh_type s.sh_flags s.sh_addr off s.binSize
          s.sh_link s.sh_info s.sh_addralign s.sh_entsize from rfl]
    exact hpp
  have hs0get : E.sections[0]? = some E.sections[0] :=
    List.getElem?_eq_getElem hpos
  have hmain : ∃ secs0',
      parseRawSections W ({ E.elf_header with
        e_shnum := E.sections.length,
        e_shoff := (writeBody E.sections 52).2.2 +
          padLen (writeBody E.sections 52).2.2 4 } : ElfHeader) = some secs0' ∧
      secs0'.length = E.sections.length ∧
      (∀ (i : Nat) t, secs0'[i]? = some t →
        ∃ s off, E.sections[i]? = some s ∧ t = rawRe i off s) := by
    rcases hg.entsz with hent | ⟨hone, hent⟩
    · -- e_shentsize = 40
      obtain ⟨off0, hget0, hparse0⟩ := hsecsParse 0 _ hs0get
      rw [show (writeBody E.sections 52).2.2 +
          padLen (writeBody E.sections 52).2.2 4 + 0 * 40 =
          (writeBody E.sections 52).2.2 +
          padLen (writeBody E.sections 52).2.2 4 by omega] at hparse0
      obtain ⟨outR, houtR⟩ := mapM_exists_of_some
        (fun i => Section.parse
          (sliceL W ((writeBody E.sections 52).2.2 +
            padLen (writeBody E.sections 52).2.2 4 + i * 40) 40) W i)
        (List.range' 1 (E.sections.length - 1))
        (by
          intro a ha
          rw [List.mem_range'_1] at ha
          have haLt : a < E.sections.length := by omega
          have hsa : E.sections[a]? = some E.sections[a] :=
            List.getElem?_eq_getElem haLt
          obtain ⟨off, _, hparse⟩ := hsecsParse a _ hsa
          exact ⟨_, hparse⟩)
      obtain ⟨hlenR, hptR⟩ := mapM_pointwise_inv _ _ _ houtR
      refine ⟨rawRe 0 off0 E.sections[0] :: outR, ?_, ?_, ?_⟩
      · unfold parseRawSections
        dsimp only
        rw [hent, hparse0]
        dsimp only
        rw [if_pos (by
          show E.sections.length ≠ 0
          omega)]
        rw [houtR]
        rfl
      · simp only [List.length_cons, hlenR, List.length_range']
        omega
      · intro i t ht
        cases i with
        | zero =>
          simp only [List.getElem?_cons_zero, Option.some.injEq] at ht
          exact ⟨E.sections[0], off0, hs0get, ht.symm⟩
        | succ j =>
          simp only [List.getElem?_cons_succ] at ht
          have hjlen : j < outR.length := getElem_opt_lt _ _ _ ht
          have hr : (List.range' 1 (E.sections.length - 1))[j]? =
              some (1 + j) := by
            rw [List.getElem?_range' 1 1 (by
              rw [hlenR, List.length_range'] at hjlen
              exact hjlen)]
            simp
          obtain ⟨b, hb, hfb⟩ := hptR j (1 + j) hr
          have hbt : b = t := by
            rw [ht] at hb
            exact (Option.some.inj hb).symm
          subst hbt
          have hjn : j + 1 < E.sections.length := by
            rw [hlenR, List.length_range'] at hjlen
            omega
          have hsj : E.sections[j + 1]? = some E.sections[j + 1] :=
            List.getElem?_eq_getElem hjn
          obtain ⟨off, _, hparse⟩ := hsecsParse (j + 1) _ hsj
          have hcomm : (1 : Nat) + j = j + 1 := Nat.add_comm 1 j
          rw [hcomm] at hfb
          rw [hparse] at hfb
          exact ⟨E.sections[j + 1], off, hsj, (Option.some.inj hfb).symm⟩
    · -- single section, e_shentsize ≥ 40
      obtain ⟨off0, hget0, hparse0⟩ := hsecsParse 0 _ hs0get
      have hflatlen1 :
          (((writeBody E.sections 52).1.map Section.header_to_bin).flatten).length
          = 40 := by
        rw [hflatlen, List.length_map, wl, hone]
      have hslice_eq : sliceL W ((writeBody E.sections 52).2.2 +
          padLen (writeBody E.sections 52).2.2 4)
          E.elf_header.e_shentsize =
          sliceL W ((writeBody E.sections 52).2.2 +
            padLen (writeBody E.sections 52).2.2 4 + 0 * 40) 40 := by
        unfold sliceL
        rw [show (writeBody E.sections 52).2.2 +
          padLen (writeBody E.sections 52).2.2 4 + 0 * 40 =
          (writeBody E.sections 52).2.2 +
          padLen (writeBody E.sections 52).2.2 4 by omega]
        rw [hWdropSh]
        rw [List.take_of_length_le (by rw [hflatlen1]; omega),
            List.take_of_length_le (by rw [hflatlen1])]
      refine ⟨[rawRe 0 off0 E.sections[0]], ?_, by simp [hone], ?_⟩
      · unfold parseRawSections
        dsimp only
        rw [hslice_eq, hparse0]
        dsimp only
        rw [if_pos (by
          show E.sections.length ≠ 0
          omega)]
        rw [hone]
        rfl
      · intro i t ht
        cases i with
        | zero =>
          simp only [List.getElem?_cons_zero, Option.some.injEq] at ht
          exact ⟨E.sections[0], off0, hs0get, ht.symm⟩
        | succ j => simp at ht
  obtain ⟨secs0', hraw', hlen0', hpt0'⟩ := hmain
  obtain ⟨tE, htE, htyE⟩ := hg.shstrOK
  have hstrLt : E.elf_header.e_shstrndx < E.sections.length :=
    getElem_opt_lt _ _ _ htE
  cases hshq : secs0'[E.elf_header.e_shstrndx]? with
  | none =>
    exact absurd hshq (by
      rw [List.getElem?_eq_getElem (by omega : E.elf_header.e_shstrndx <
        secs0'.length)]
      simp)
  | some shstrV =>
  obtain ⟨sE, offS, hsE, hteq⟩ := hpt0' _ _ hshq
  have hsEtE : sE = tE := by
    rw [htE] at hsE
    exact (Option.some.inj hsE).symm
  have hshty' : shstrV.sh_type = SHT_STRTAB := by
    rw [hteq]
    show sE.sh_type = SHT_STRTAB
    rw [hsEtE]
    exact htyE
  have hshdata' : shstrV.data = tE.data := by
    rw [hteq]
    show sE.data = tE.data
    rw [hsEtE]
  have hptRaw : ∀ (j : Nat), (secs0'[j]?).map (fun t => (t.sh_type, t.data)) =
      (E.sections[j]?).map (fun t => (t.sh_type, t.data)) := by
    intro j
    cases hq : secs0'[j]? with
    | none =>
      have hj : E.sections.length ≤ j := by
        by_contra hc
        push_neg at hc
        rw [List.getElem?_eq_getElem (by omega : j < secs0'.length)] at hq
        simp at hq
      rw [List.getElem?_eq_none hj]
    | some t =>
      obtain ⟨s, off, hs, hteq2⟩ := hpt0' j t hq
      rw [hs, hteq2]
      rfl
  have hf2 : ∀ (i : Nat) t, secs0'[i]? = some t →
      ∃ s off, E.sections[i]? = some s ∧
        (if shstrV.sh_type = SHT_STRTAB then
          match lookupStrData shstrV.data t.sh_name with
          | none => none
          | some nm => Section.lateInit secs0' { t with name := nm }
        else none) = some (reFin i off s) := by
    intro i t ht
    obtain ⟨s, off, hs, hteq2⟩ := hpt0' i t ht
    subst hteq2
    have hmem : s ∈ E.sections := List.getElem?_mem hs
    refine ⟨s, off, hs, ?_⟩
    rw [if_pos hshty']
    have hnme : lookupStrData shstrV.data (rawRe i off s).sh_name =
        some s.name := by
      rw [hshdata']
      exact hg.names s hmem tE htE
    rw [hnme]
    dsimp only
    by_cases hty : s.sh_type = SHT_SYMTAB
    · have hsz' : ({ rawRe i off s with name := s.name } : Section).sh_size =
          s.sh_size := by
        show s.binSize = s.sh_size
        unfold Section.binSize
        rw [if_neg (by rw [hty]; decide)]
        exact hg.unclamped s hmem (by rw [hty]; decide)
      have hsymOf : symsOf secs0' { rawRe i off s with name := s.name } =
          some s.symbol_entries := by
        rw [symsOf_congr E.sections secs0' s
          { rawRe i off s with name := s.name } hptRaw rfl hsz' rfl rfl]
        exact (hg.lsym s hmem hty).1
      unfold Section.lateInit
      rw [if_pos (show ({ rawRe i off s with name := s.name } :
        Section).sh_type = SHT_SYMTAB from hty)]
      rw [hsymOf]
      rw [Option.map_some']
      refine congrArg some ?_
      simp only [reFin, rawRe, Section.mk.injEq]
      simp [(hg.lsym s hmem hty).2]
    · by_cases hrel : s.isRel = true
      · have hinfoLt : s.sh_info < E.sections.length :=
          (hg.lrel s hmem hrel).1
        have hsz' : ({ rawRe i off s with name := s.name } :
            Section).sh_size = s.sh_size := by
          show s.binSize = s.sh_size
          unfold Section.binSize
          have hnb : s.sh_type ≠ SHT_NOBITS := by
            unfold Section.isRel at hrel
            simp only [Bool.or_eq_true, beq_iff_eq] at hrel
            rcases hrel with hh | hh <;> rw [hh] <;> decide
          rw [if_neg hnb]
          exact hg.unclamped s hmem hnb
        have hrelsOf : relsOf { rawRe i off s with name := s.name } =
            some s.relocations := by
          rw [relsOf_congr s { rawRe i off s with name := s.name }
            rfl rfl hsz' rfl]
          exact (hg.lrel s hmem hrel).2.1
        unfold Section.lateInit
        rw [if_neg (show ¬({ rawRe i off s with name := s.name } :
          Section).sh_type = SHT_SYMTAB from hty)]
        rw [if_pos (show Section.isRel { rawRe i off s with name := s.name }
          = true from hrel)]
        cases hinfq : secs0'[({ rawRe i off s with name := s.name } :
            Section).sh_info]? with
        | none =>
          exact absurd hinfq (by
            rw [List.getElem?_eq_getElem (show ({ rawRe i off s with
              name := s.name } : Section).sh_info < secs0'.length by
                show s.sh_info < secs0'.length
                omega)]
            simp)
        | some u =>
          rw [hrelsOf]
          rw [Option.map_some']
          refine congrArg some ?_
          simp only [reFin, rawRe, Section.mk.injEq]
          simp [(hg.lrel s hmem hrel).2.2]
      · have hplain := hg.lplain s hmem hty (by
          cases hx : s.isRel
          · rfl
          · exact absurd hx hrel)
        unfold Section.lateInit
        rw [if_neg (show ¬({ rawRe i off s with name := s.name } :
          Section).sh_type = SHT_SYMTAB from hty)]
        rw [if_neg (show ¬(Section.isRel { rawRe i off s with
          name := s.name } = true) from hrel)]
        refine congrArg some ?_
        simp only [reFin, rawRe, Section.mk.injEq]
        simp [hplain.1, hplain.2]
  obtain ⟨out2, hout2⟩ := mapM_exists_of_some _ secs0' (by
    intro a ha
    obtain ⟨i, hi⟩ := mem_getElem_opt _ _ ha
    obtain ⟨s, off, _, hfa⟩ := hf2 i a hi
    exact ⟨_, hfa⟩)
  obtain ⟨hlen2, hpt2m⟩ := mapM_pointwise_inv _ _ _ hout2
  have hpt2 : ∀ (i : Nat) u, out2[i]? = some u →
      ∃ s off, E.sections[i]? = some s ∧ u = reFin i off s := by
    intro i u hu
    have hi2 : i < secs0'.length := by
      have := getElem_opt_lt _ _ _ hu
      omega
    have hq : secs0'[i]? = some secs0'[i] := List.getElem?_eq_getElem hi2
    obtain ⟨b, hb, hfb⟩ := hpt2m i _ hq
    obtain ⟨s, off, hs, hfa⟩ := hf2 i _ hq
    rw [hfa] at hfb
    have hbu : b = u := by
      rw [hu] at hb
      exact (Option.some.inj hb).symm
    exact ⟨s, off, hs, by rw [← hbu]; exact (Option.some.inj hfb).symm⟩
  have htymap' : secs0'.map (fun s => s.sh_type) =
      E.sections.map (fun s => s.sh_type) := by
    apply List.ext_getElem?
    intro j
    rw [List.getElem?_map, List.getElem?_map]
    have hj := congrArg (Option.map Prod.fst) (hptRaw j)
    simpa [Option.map_map, Function.comp] using hj
  have hcount' : (secs0'.filter (fun s => s.sh_type == SHT_SYMTAB)).length
      = 1 := by
    rw [← List.countP_eq_length_filter]
    have hc := congrArg (List.countP (fun ty => ty == SHT_SYMTAB)) htymap'
    rw [List.countP_map, List.countP_map] at hc
    have hc2 : List.countP (fun s => s.sh_type == SHT_SYMTAB) secs0' =
        List.countP (fun s => s.sh_type == SHT_SYMTAB) E.sections := by
      simpa [Function.comp] using hc
    rw [hc2, List.countP_eq_length_filter]
    exact hg.symcount
  have hfind' : secs0'.findIdx (fun s => s.sh_type == SHT_SYMTAB) =
      E.symtabIdx := by
    rw [hg.symidx]
    exact findIdx_map_congr (fun s => s.sh_type) (fun ty => ty == SHT_SYMTAB)
      secs0' E.sections htymap'
  have hsymLt : E.symtabIdx < E.sections.length := by
    rw [hg.symidx]
    apply List.findIdx_lt_length_of_exists
    have hfne : E.sections.filter (fun s => s.sh_type == SHT_SYMTAB) ≠ [] := by
      intro hx
      have h1 := hg.symcount
      rw [hx] at h1
      simp at h1
    obtain ⟨x, hx⟩ := List.exists_mem_of_ne_nil _ hfne
    exact ⟨x, (List.mem_filter.mp hx).1, (List.mem_filter.mp hx).2⟩
  refine ⟨{ elf_header := { E.elf_header with e_shnum := E.sections.length,
                                              e_shoff :=
                                                (writeBody E.sections 52).2.2 +
                                                padLen
                                                  (writeBody E.sections 52).2.2
                                                  4 },
            sections := out2.map (fun s =>
              { s with relocated_by := relocatedByList out2 s.index }),
            symtabIdx :=
              secs0'.findIdx (fun s => s.sh_type == SHT_SYMTAB) }, ?_, ?_⟩
  · unfold ElfFile.parse
    rw [if_pos hmagic, hparseH]
    dsimp only
    rw [hraw']
    dsimp only
    rw [if_pos hcount']
    rw [hshq]
    dsimp only
    rw [hout2]
  · -- functional view equality
    have hstS : (((out2.map (fun s =>
        { s with relocated_by := relocatedByList out2 s.index }))[
          secs0'.findIdx (fun s => s.sh_type == SHT_SYMTAB)]?).map
          Section.symbol_entries).getD [] =
        (((E.sections[E.symtabIdx]?).map Section.symbol_entries).getD []) := by
      rw [hfind']
      have hA : E.symtabIdx < out2.length := by
        rw [hlen2, hlen0']
        exact hsymLt
      have hq2 : out2[E.symtabIdx]? = some out2[E.symtabIdx] :=
        List.getElem?_eq_getElem hA
      obtain ⟨s, off, hs, hveq⟩ := hpt2 _ _ hq2
      rw [List.getElem?_map, hq2, hveq, hs]
      simp only [Option.map_some', Option.getD_some]
      rfl
    unfold elfView
    dsimp only
    rw [hstS]
    apply List.ext_getElem?
    intro i
    simp only [List.getElem?_map]
    cases hq : out2[i]? with
    | none =>
      have hi : E.sections.length ≤ i := by
        by_contra hc
        push_neg at hc
        rw [List.getElem?_eq_getElem
          (by rw [hlen2, hlen0']; exact hc : i < out2.length)] at hq
        simp at hq
      rw [List.getElem?_eq_none hi]
      rfl
    | some v =>
      obtain ⟨s, off, hs, hveq⟩ := hpt2 i v hq
      subst hveq
      rw [hs]
      simp only [Option.map_some', Option.some.injEq]
      rfl


set_option maxRecDepth 100000 in
/-- C1 (counterexample): parse-then-write is not functionally equivalent for
every accepted object.  `c1CtrBytes` is accepted by the parser with a
`SHT_NULL` null section claiming 2 payload bytes at offset 214; the writer
skips null payloads but keeps the stale `sh_offset`, so re-parsing the
written file reads a different payload and the views differ. -/
theorem c1_counterexample :
    ((ElfFile.parse c1CtrBytes).bind (fun E =>
      (ElfFile.write E).bind (fun W =>
        (ElfFile.parse W).map (fun E2 =>
          decide (elfView E2 = elfView E))))) = some false := by
  decide

/-- C1 (amended): for every object `O` accepted by the parser whose payloads
are not clamped by the end of the file (each non-`SHT_NOBITS` section holds
exactly `sh_size` bytes) and whose `SHT_NULL` sections are empty, writing the
parsed model and re-parsing the result yields a functionally equivalent
model: the same sequence of sections by name, type, flags, link, info,
addralign, entsize and payload bytes, the same symbol sequences and the same
relocation sequences (symbols resolved by name through the symtab) — byte
offsets may differ. -/
theorem c1_round_trip (O : List Nat) (E : ElfFile) (W : List Nat)
    (hparse : ElfFile.parse O = some E)
    (hunc : ∀ s ∈ E.sections, s.sh_type ≠ SHT_NOBITS →
      s.data.length = s.sh_size)
    (hnul : ∀ s ∈ E.sections, s.sh_type = SHT_NULL → s.data = [])
    (hw : ElfFile.write E = some W) :
    ∃ E2, ElfFile.parse W = some E2 ∧ elfView E2 = elfView E :=
  write_parse E W (parse_good O E hparse hunc hnul) hw

set_option maxRecDepth 100000 in
/-- Witness for C1: the clean object `c1WitBytes` (empty null section,
unclamped payloads) round-trips to an equivalent view. -/
theorem c1_witness :
    ∃ E2, ElfFile.parse
        ((ElfFile.write ((ElfFile.parse c1WitBytes).getD c6Fallback)).getD [])
        = some E2 ∧
      elfView E2 = elfView ((ElfFile.parse c1WitBytes).getD c6Fallback) :=
  c1_round_trip c1WitBytes ((ElfFile.parse c1WitBytes).getD c6Fallback)
    ((ElfFile.write ((ElfFile.parse c1WitBytes).getD c6Fallback)).getD [])
    (by decide) (by decide) (by decide) (by decide)

/-- C9 (counterexample): `add_str` on the string `"\x00"` (one NUL byte)
returns an offset at which `lookup_str` finds the empty string, not the
argument: the round trip fails for strings containing NUL. -/
theorem c9_counterexample :
    Section.add_str c9Sec [0] = some (1, { c9Sec with data := [0, 0, 0] }) ∧
    Section.lookup_str { c9Sec with data := [0, 0, 0] } 1 = some [] ∧
    some ([] : List Nat) ≠ some [0] := by
  refine ⟨by decide, by decide, by decide⟩

/-- C9 (amended): for every NUL-free string `s` and string-table section,
`add_str s` returns the current payload length and appends `s ++ [0]`, and
`lookup_str` at the returned offset returns `s` — also after the table grows
by arbitrary further appends (string tables are never truncated). -/
theorem c9_add_str_lookup_str (sec : Section) (s : List Nat)
    (hty : sec.sh_type = SHT_STRTAB) (hs : 0 ∉ s) :
    ∃ sec', sec.add_str s = some (sec.data.length, sec') ∧
      sec'.data = sec.data ++ s ++ [0] ∧
      sec'.lookup_str sec.data.length = some s ∧
      ∀ extra, Section.lookup_str { sec' with data := sec'.data ++ extra }
        sec.data.length = some s := by
  refine ⟨{ sec with data := sec.data ++ s ++ [0] }, ?_, rfl, ?_, ?_⟩
  · unfold Section.add_str
    rw [if_pos hty]
  · unfold Section.lookup_str
    rw [if_pos hty]
    simpa using lookupStrData_append hs []
  · intro extra
    unfold Section.lookup_str
    rw [if_pos hty]
    have : sec.data ++ s ++ [0] ++ extra = sec.data ++ s ++ [0] ++ extra := rfl
    simpa [List.append_assoc] using lookupStrData_append (d := sec.data) hs extra

theorem reginfoGo_inv (src : List Nat) (hs : 20 ≤ src.length) :
    ∀ n i d, i + n = 20 → 20 ≤ d.length →
    ∃ m, reginfoGo src n i d = some m ∧ m.length = d.length ∧
      (∀ j, j < i ∨ 20 ≤ j → m[j]? = d[j]?) ∧
      (∀ j, i ≤ j → j < 20 → m[j]? = some (d.getD j 0 ||| src.getD j 0)) := by
  intro n
  induction n with
  | zero =>
    intro i d hk hd
    have hi20 : i = 20 := by omega
    subst hi20
    exact ⟨d, rfl, rfl, fun j _ => rfl, fun j h1 h2 => absurd h2 (by omega)⟩
  | succ n ih =>
    intro i d hk hd
    have hi20 : i < 20 := by omega
    have hdi : i < d.length := by omega
    have hsi : i < src.length := by omega
    obtain ⟨a, ha⟩ : ∃ a, d[i]? = some a := ⟨d[i], List.getElem?_eq_getElem hdi⟩
    obtain ⟨b, hb⟩ : ∃ b, src[i]? = some b :=
      ⟨src[i], List.getElem?_eq_getElem hsi⟩
    have hlen' : 20 ≤ (d.set i (a ||| b)).length := by simp [hd]
    obtain ⟨m, hm, hmlen, hold, hnew⟩ :=
      ih (i + 1) (d.set i (a ||| b)) (by omega) hlen'
    refine ⟨m, ?_, by simpa using hmlen, ?_, ?_⟩
    · rw [reginfoGo]
      simp only [ha, hb]
      exact hm
    · intro j hj
      have hne : i ≠ j := by omega
      have := hold j (by omega)
      rwa [List.getElem?_set_ne hne] at this
    · intro j h1 h2
      rcases Nat.eq_or_lt_of_le h1 with he | hlt
      · subst he
        have hmi : m[i]? = (d.set i (a ||| b))[i]? := hold i (by omega)
        rw [hmi, List.getElem?_set_self hdi]
        simp only [List.getD_eq_getElem?_getD, ha, hb]
        rfl
      · have hh := hnew j hlt h2
        rw [hh]
        simp only [List.getD_eq_getElem?_getD,
          List.getElem?_set_ne (by omega : i ≠ j)]

/-- C7: after the reginfo merge step, each of the first 20 bytes of the target
`.reginfo` payload is the bitwise OR of the corresponding original target and
source bytes, and the remaining 4 bytes are unchanged. -/
theorem c7_reginfo_merge (tgt src : List Nat) (ht : tgt.length = 24)
    (hs : 20 ≤ src.length) :
    ∃ m, reginfoMergeCode tgt src = some m ∧ m.length = 24 ∧
      (∀ j, j < 20 → m[j]? = some (tgt.getD j 0 ||| src.getD j 0)) ∧
      (∀ j, 20 ≤ j → m[j]? = tgt[j]?) := by
  obtain ⟨m, hm, hlen, hold, hnew⟩ :=
    reginfoGo_inv src hs 20 0 tgt (by omega) (by omega)
  refine ⟨m, hm, by omega, ?_, ?_⟩
  · exact fun j hj => hnew j (by omega) hj
  · exact fun j hj => hold j (Or.inr hj)

/-- C7 witness: the spec's E6 flavour — `0x0F`-masked target, `0xF0`-masked
source, OR-merged. -/
theorem c7_witness :
    ∃ m, reginfoMergeCode ([0, 0, 0, 15] ++ List.replicate 20 0)
        ([0, 0, 0, 240] ++ List.replicate 16 0) = some m ∧ m.length = 24 ∧
      (∀ j, j < 20 → m[j]? =
        some (([0, 0, 0, 15] ++ List.replicate 20 0).getD j 0 |||
              ([0, 0, 0, 240] ++ List.replicate 16 0).getD j 0)) ∧
      (∀ j, 20 ≤ j → m[j]? = ([0, 0, 0, 15] ++ List.replicate 20 0)[j]?) :=
  c7_reginfo_merge ([0, 0, 0, 15] ++ List.replicate 20 0)
    ([0, 0, 0, 240] ++ List.replicate 16 0) (by decide) (by decide)

theorem pySliceAssign_length (d repl : List Nat) (a b : Nat) (hab : a ≤ b)
    (hb : b ≤ d.length) (hr : repl.length = b - a) :
    (pySliceAssign d a b repl).length = d.length := by
  unfold pySliceAssign
  simp only [List.length_append, List.length_take, List.length_drop]
  omega

theorem pySlice_length (src : List Nat) (a b : Nat) (hab : a ≤ b)
    (hb : b ≤ src.length) : (pySlice src a b).length = b - a := by
  unfold pySlice
  simp only [List.length_drop, List.length_take]
  omega

/-- C4 (amended): the splice loop preserves the target `.text` length provided
every planned word range lies inside both the target and the source `.text`
payloads. -/
theorem c4_splice_preserves_length (tgt src : List Nat) (plan : List (Nat × Nat))
    (hb : ∀ pc ∈ plan, 4 * (pc.1 + pc.2) ≤ tgt.length ∧
                       4 * (pc.1 + pc.2) ≤ src.length) :
    (spliceTextCode tgt src plan).length = tgt.length := by
  induction plan generalizing tgt with
  | nil => rfl
  | cons pc rest ih =>
    obtain ⟨h1, h2⟩ := hb pc (by simp)
    have hstep :
        (pySliceAssign tgt (pc.1 * 4) (pc.1 * 4 + pc.2 * 4)
          (pySlice src (pc.1 * 4) (pc.1 * 4 + pc.2 * 4))).length = tgt.length := by
      apply pySliceAssign_length _ _ _ _ (by omega) (by omega)
      rw [pySlice_length _ _ _ (by omega) (by omega)]
    unfold spliceTextCode at ih ⊢
    rw [List.foldl_cons, ih _ (fun pc' hm => by rw [hstep]; exact hb pc' (by simp [hm]))]
    exact hstep

set_option maxRecDepth 100000 in
/-- C4 (counterexample): a successful `fixup_objfile` run — target `.text` is
8 bytes, the assembled `.text` only 4, copy plan `[(0, 4)]` — writes an object
whose `.text` payload has length 4, not the original 8: Python slice
assignment shrank the list. -/
theorem c4_counterexample :
    ((fixupRun c34TgtBytes c34Fns c34Oracle).1.bind (fun w =>
      (ElfFile.parse w).bind (fun E =>
        (E.findSection textName).map (fun s => s.data.length)))) = some 4 ∧
    ((ElfFile.parse c34TgtBytes).bind (fun E =>
      (E.findSection textName).map (fun s => s.data.length))) = some 8 ∧
    (4 : Nat) ≠ 8 := by
  refine ⟨by decide, by decide, by decide⟩

/-- C4 witness: the amended theorem at a concrete in-bounds splice. -/
theorem c4_witness :
    (spliceTextCode (List.replicate 16 1) (List.replicate 16 2) [(0, 4)]).length
      = (List.replicate 16 1).length :=
  c4_splice_preserves_length (List.replicate 16 1) (List.replicate 16 2)
    [(0, 4)] (by decide)

/-- C5: the generated assembly is, for each function descriptor in list order,
`loc - prev_loc` nop lines followed by the body lines, where `loc` is the
placeholder's `st_value / 4` (`st_value` alignment and ordering enforced) and
`prev_loc` becomes `loc + num_instr`; the `.s` file is the optional prelude,
the `.text` directive, then these lines.  The second conjunct is the spec's
E2 example: placeholders at words 0 (4 instrs) and 10 (3 instrs) give 0 nops,
4 body lines, 6 nops, 3 body lines, with the copy plan `[(0,4), (10,3)]`. -/
theorem c5_gen_asm :
    (∀ (st : Section) (fs : List FuncDesc) (prev : Nat) asm cp tn fn,
      genAsmGo st fs prev = some (asm, cp, tn, fn) →
      planOK st fs prev cp ∧
      asm = genAsmSpec prev (fs.zip (cp.map Prod.fst)) ∧
      tn = fs.map FuncDesc.temp_fn_name ∧ fn = fs.map FuncDesc.fn_name ∧
      (∀ prelude, asmFileLines prelude asm =
        prelude ++ [strBytes ".section .text, \"ax\"", []] ++ asm)) ∧
    genAsmGo e2Symtab e2Fns 0 =
      some (e2BodyA ++ List.replicate 6 nopLine ++ e2BodyB, [(0, 4), (10, 3)],
            [strBytes "tempfun0", strBytes "tempfun1"],
            [strBytes "a", strBytes "b"]) := by
  constructor
  · intro st fs
    induction fs with
    | nil =>
      intro prev asm cp tn fn h
      rw [genAsmGo] at h
      injection h with h
      simp only [Prod.mk.injEq] at h
      obtain ⟨rfl, rfl, rfl, rfl⟩ := h
      exact ⟨rfl, rfl, rfl, rfl, fun _ => rfl⟩
    | cons f fs ih =>
      intro prev asm cp tn fn h
      rw [genAsmGo] at h
      split at h
      · exact absurd h (by simp)
      · rename_i loc0 hfind
        split at h
        · rename_i h4
          dsimp only at h
          split at h
          · rename_i hord
            split at h
            · exact absurd h (by simp)
            · rename_i r hrec
              injection h with h
              simp only [Prod.mk.injEq] at h
              obtain ⟨rfl, rfl, rfl, rfl⟩ := h
              obtain ⟨hplan, hasm, htn, hfn, _⟩ := ih _ _ _ _ _ hrec
              refine ⟨⟨loc0.1, loc0.2, r.2.1, by rw [hfind], h4, hord,
                rfl, hplan⟩, ?_, by simp [htn], by simp [hfn], fun _ => rfl⟩
              simp only [List.map_cons, List.zip_cons_cons, genAsmSpec]
              rw [hasm]
              rfl
          · exact absurd h (by simp)
        · exact absurd h (by simp)
  · decide

/-- C5 witness: the characterization applied to the E2 scenario. -/
theorem c5_witness :
    planOK e2Symtab e2Fns 0 [(0, 4), (10, 3)] ∧
    e2BodyA ++ List.replicate 6 nopLine ++ e2BodyB =
      genAsmSpec 0 (e2Fns.zip ([(0, 4), (10, 3)].map Prod.fst)) := by
  obtain ⟨hplan, hasm, _, _, _⟩ :=
    c5_gen_asm.1 e2Symtab e2Fns 0 _ _ _ _ c5_gen_asm.2
  exact ⟨hplan, hasm⟩


theorem list_set_same {α : Type} :
    ∀ (l : List α) (i : Nat) (a : α), l[i]? = some a → l.set i a = l := by
  intro l
  induction l with
  | nil => intro i a h; simp at h
  | cons x xs ih =>
    intro i a h
    cases i with
    | zero => simp at h; simp [h]
    | succ j =>
      simp only [List.getElem?_cons_succ] at h
      simp [List.set_cons_succ, ih j a h]

theorem pushRelocatedBy_names (secs : List Section) (tgtIdx newIdx : Nat) :
    (pushRelocatedBy secs tgtIdx newIdx).map Section.name =
      secs.map Section.name := by
  unfold pushRelocatedBy
  split
  · rfl
  · rename_i t ht
    rw [List.map_set]
    exact list_set_same _ _ _ (by rw [List.getElem?_map, ht]; rfl)

theorem pushRelocatedBy_length (secs : List Section) (tgtIdx newIdx : Nat) :
    (pushRelocatedBy secs tgtIdx newIdx).length = secs.length := by
  unfold pushRelocatedBy
  split
  · rfl
  · simp

theorem pushRelocatedBy_getElem (secs : List Section) (tgtIdx newIdx i : Nat)
    (s : Section) (hs : secs[i]? = some s) :
    ∃ s', (pushRelocatedBy secs tgtIdx newIdx)[i]? = some s' ∧
      s'.sh_type = s.sh_type ∧ s'.sh_flags = s.sh_flags ∧
      s'.sh_link = s.sh_link ∧ s'.sh_info = s.sh_info ∧
      s'.sh_addralign = s.sh_addralign ∧ s'.sh_entsize = s.sh_entsize ∧
      s'.name = s.name ∧ s'.data = s.data ∧ s'.index = s.index := by
  unfold pushRelocatedBy
  split
  · exact ⟨s, hs, rfl, rfl, rfl, rfl, rfl, rfl, rfl, rfl, rfl⟩
  · rename_i t ht
    by_cases he : tgtIdx = i
    · subst he
      have hts : t = s := by rw [ht] at hs; injection hs
      subst hts
      have hlt : tgtIdx < secs.length := by
        by_contra hge
        rw [List.getElem?_eq_none (by omega)] at hs
        cases hs
      refine ⟨{ t with relocated_by := t.relocated_by ++ [newIdx] },
        by rw [List.getElem?_set_self hlt], rfl, rfl, rfl, rfl, rfl, rfl, rfl,
        rfl, rfl⟩
    · exact ⟨s, by rw [List.getElem?_set_ne he, hs], rfl, rfl, rfl, rfl, rfl,
        rfl, rfl, rfl, rfl⟩

theorem relsOf_ent0 (s : Section) (h : s.sh_entsize = 0) : relsOf s = none := by
  rw [relsOf, if_pos h]

theorem relsOf_empty (s : Section) (hsz : s.sh_size = 0)
    (hent : s.sh_entsize ≠ 0) : relsOf s = some [] := by
  rw [relsOf, if_neg hent]
  unfold strideIdx
  rw [hsz, Nat.div_eq_of_lt (by omega)]
  rfl

/-- Successful `add_section` of an empty REL/RELA table: the section list
gains exactly one section, with the requested metadata, at the end; all other
sections keep their names; the header and symtab index are untouched. -/
theorem add_section_rel_spec (E : ElfFile) (nm : List Nat)
    (ty lk inf al ent : Nat) (E' : ElfFile)
    (hty : ty = SHT_REL ∨ ty = SHT_RELA)
    (h : E.add_section nm ty 0 lk inf al ent [] = some E') :
    E'.sections.map Section.name = E.sections.map Section.name ++ [nm] ∧
    E'.elf_header = E.elf_header ∧ E'.symtabIdx = E.symtabIdx ∧
    ∃ s2, E'.sections[E.sections.length]? = some s2 ∧
      s2.sh_type = ty ∧ s2.sh_flags = 0 ∧ s2.sh_link = lk ∧ s2.sh_info = inf ∧
      s2.sh_addralign = al ∧ s2.sh_entsize = ent ∧ s2.name = nm ∧
      s2.data = [] ∧ s2.index = E.sections.length := by
  have hns : ty ≠ SHT_SYMTAB := by rcases hty with rfl | rfl <;> decide
  unfold ElfFile.add_section at h
  split at h
  · exact absurd h (by simp)
  · rename_i shstr hshstr
    split at h
    · rename_i hS
      dsimp only at h
      split at h
      · rename_i hF
        simp only [fitsU, Bool.and_eq_true, decide_eq_true_eq] at hF
        obtain ⟨hf1, hf2, hf3, hf4, hf5, hf6, hf7, hf8⟩ := hF
        split at h
        · exact absurd h (by simp)
        · rename_i s0 hs0
          have hpp := Section.parse_pack shstr.data.length ty 0 0 0
            (List.length ([] : List Nat)) lk inf al ent []
            ((E.sections.set E.elf_header.e_shstrndx
              { shstr with data := shstr.data ++ nm ++ [0] }).length)
            hf1 hf2 hf3 (by norm_num) (by norm_num) hf4 hf5 hf6 hf7 hf8
            (by decide) (Or.inr (Nat.zero_mod ent))
          have hs0eq := Option.some.inj (hs0.symm.trans hpp)
          subst hs0eq
          simp only [List.length_nil] at h
          simp only [show (if ty = SHT_NOBITS then ([] : List Nat)
            else sliceL [] 0 0) = [] from by split <;> rfl] at h
          split at h
          · exact absurd h (by simp)
          · rename_i s2 hlate
            rw [Section.lateInit] at hlate
            rw [if_neg (by exact hns)] at hlate
            rw [if_pos (by rcases hty with rfl | rfl <;> rfl)] at hlate
            split at hlate
            · exact absurd hlate (by simp)
            · by_cases hent : ent = 0
              · rw [relsOf_ent0] at hlate
                · exact absurd hlate (by simp)
                · exact hent
              · rw [relsOf_empty] at hlate
                rotate_left
                · simp
                · exact hent
                simp only [Option.map_some'] at hlate
                have hs2 := (Option.some.inj hlate).symm
                subst hs2
                injection h with h
                subst h
                refine ⟨?_, rfl, rfl, ?_⟩
                · dsimp only
                  rw [if_pos (by rcases hty with rfl | rfl <;> rfl)]
                  rw [pushRelocatedBy_names, List.map_append, List.map_set]
                  have hname : (E.sections.map Section.name).set
                      E.elf_header.e_shstrndx shstr.name =
                      E.sections.map Section.name :=
                    list_set_same _ _ _ (by rw [List.getElem?_map, hshstr]; rfl)
                  dsimp only at hname ⊢
                  rw [hname]
                  rfl
                · dsimp only
                  rw [if_pos (by rcases hty with rfl | rfl <;> rfl)]
                  have hidx : (E.sections.set E.elf_header.e_shstrndx
                      { shstr with data := shstr.data ++ nm ++ [0] }).length =
                      E.sections.length := by simp
                  obtain ⟨s2, hs2, hp1, hp2, hp3, hp4, hp5, hp6, hp7, hp8, hp9⟩ :=
                    pushRelocatedBy_getElem
                      ((E.sections.set E.elf_header.e_shstrndx
                        { shstr with data := shstr.data ++ nm ++ [0] }) ++
                        [addedSec shstr.data.length
                          (E.sections.set E.elf_header.e_shstrndx
                            { shstr with data := shstr.data ++ nm ++ [0] }).length
                          ty lk inf al ent nm])
                      inf
                      (E.sections.set E.elf_header.e_shstrndx
                        { shstr with data := shstr.data ++ nm ++ [0] }).length
                      (E.sections.set E.elf_header.e_shstrndx
                        { shstr with data := shstr.data ++ nm ++ [0] }).length
                      (addedSec shstr.data.length
                        (E.sections.set E.elf_header.e_shstrndx
                          { shstr with data := shstr.data ++ nm ++ [0] }).length
                        ty lk inf al ent nm)
                      (List.getElem?_concat_length _ _)
                  rw [← hidx]
                  refine ⟨s2, hs2, by rw [hp1]; rfl, by rw [hp2]; rfl,
                    by rw [hp3]; rfl, by rw [hp4]; rfl, by rw [hp5]; rfl,
                    by rw [hp6]; rfl, by rw [hp7]; rfl, by rw [hp8]; rfl,
                    by rw [hp9]; rfl⟩
      · exact absurd h (by simp)
    · exact absurd h (by simp)

theorem mapM_mem_inv {α β : Type} {f : α → Option β} :
    ∀ (l : List α) (l2 : List β), l.mapM f = some l2 →
    ∀ b ∈ l2, ∃ a ∈ l, f a = some b := by
  intro l
  induction l with
  | nil =>
    intro l2 h b hb
    simp only [List.mapM_nil, Option.pure_def, Option.some.injEq] at h
    subst h
    simp at hb
  | cons a rest ih =>
    intro l2 h b hb
    rw [List.mapM_cons] at h
    simp only [Option.pure_def, Option.bind_eq_bind, Option.bind_eq_some] at h
    obtain ⟨b0, hb0, bs, hbs, hcons⟩ := h
    injection hcons with hcons
    subst hcons
    rcases List.mem_cons.mp hb with rfl | hb2
    · exact ⟨a, by simp, hb0⟩
    · obtain ⟨a2, ha2, hfa2⟩ := ih bs hbs b hb2
      exact ⟨a2, by simp [ha2], hfa2⟩


theorem remapTargetRelocs_mem {relocs rl' : List Relocation}
    {tm : List (Option Nat)} (h : remapTargetRelocs relocs tm = some rl') :
    ∀ r ∈ rl', some r.sym_index ∈ tm := by
  intro r hr
  obtain ⟨r0, _, hf⟩ := mapM_mem_inv relocs rl' h r hr
  split at hf
  · exact absurd hf (by simp)
  · rename_i o ho
    split at hf
    · exact absurd hf (by simp)
    · injection hf with hf
      subst hf
      exact List.getElem?_mem ho

theorem remapSourceRelocs_mem {relocs rl' : List Relocation} {numLocal : Nat}
    {sm : List (Option Nat)} (h : remapSourceRelocs relocs numLocal sm = some rl') :
    ∀ r ∈ rl', some r.sym_index ∈ sm := by
  intro r hr
  obtain ⟨r0, _, hf⟩ := mapM_mem_inv relocs rl' h r hr
  split_ifs at hf
  split at hf
  · exact absurd hf (by simp)
  · rename_i o ho
    split at hf
    · exact absurd hf (by simp)
    · injection hf with hf
      subst hf
      exact List.getElem?_mem ho

/-- C3 (amended): every relocation actually remapped by the splicer — the
tables in `target.text.relocated_by` (via the retained target symbols'
`new_index`) and the propagated source-side tables (via the appended source
symbols' `new_index`) — ends up with `sym_index` strictly below the number of
entries of the merged symbol table.  Relocation sections that do not relocate
`.text` are left untouched by the code and are not covered (see the
counterexample). -/
theorem c3_remapped_in_range (tgtSyms srcSyms : List Symbol) (numLocal : Nat)
    (temps fns : List (List Nat)) (sIdx tIdx adjn : Nat) (merged : List Symbol)
    (tm sm : List (Option Nat))
    (h : mergeSymbolsCode tgtSyms srcSyms numLocal temps fns sIdx tIdx adjn
         = some (merged, tm, sm))
    (rl1 rl1' rl2 rl2' : List Relocation)
    (h1 : remapTargetRelocs rl1 tm = some rl1')
    (h2 : remapSourceRelocs rl2 numLocal sm = some rl2') :
    ∀ r ∈ rl1' ++ rl2', r.sym_index < merged.length := by
  unfold mergeSymbolsCode at h
  dsimp only at h
  split at h
  · exact absurd h (by simp)
  · rename_i rs hsrc
    injection h with h
    simp only [Prod.mk.injEq] at h
    obtain ⟨rfl, rfl, rfl⟩ := h
    obtain ⟨ht1, ht2, ht3⟩ := mergeGoTarget_spec temps tgtSyms 0
    obtain ⟨hs1, _, hs3⟩ :=
      mergeGoSource_spec sIdx tIdx adjn fns (srcSyms.drop numLocal)
        (mergeGoTarget temps tgtSyms 0).2.2 rs hsrc
    have hkept : (mergeGoTarget temps tgtSyms 0).2.2 =
        (mergeGoTarget temps tgtSyms 0).1.length := by
      rw [ht2, ht1]
      simp
    have hlen : ((mergeGoTarget temps tgtSyms 0).1 ++ rs.1).length =
        (mergeGoTarget temps tgtSyms 0).2.2 + (srcSyms.drop numLocal).length := by
      rw [List.length_append, hs1, ← hkept]
      simp
    intro r hr
    rcases List.mem_append.mp hr with hl | hrj
    · have hmem := remapTargetRelocs_mem h1 r hl
      obtain ⟨_, hlt⟩ := ht3 (some r.sym_index) hmem r.sym_index rfl
      rw [List.length_append]
      omega
    · have hmem := remapSourceRelocs_mem h2 r hrj
      rcases List.mem_append.mp hmem with hrep | hsm
      · exact absurd (List.eq_of_mem_replicate hrep) (by simp)
      · obtain ⟨_, hlt⟩ := hs3 (some r.sym_index) hsm r.sym_index rfl
        omega

set_option maxRecDepth 100000 in
/-- C3 (counterexample): a successful `fixup_objfile` run on a target with a
`.rel.data` section (which does not relocate `.text` and is therefore never
remapped) writes an object in which that relocation's `sym_index` (2) is not
below the merged symbol count (2): the claim fails for relocation sections
outside `target.text.relocated_by`. -/
theorem c3_counterexample :
    ((fixupRun c34TgtBytes c34Fns c34Oracle).1.bind (fun w =>
      (ElfFile.parse w).map (fun E =>
        decide (∀ s ∈ E.sections, ∀ r ∈ s.relocations,
          r.sym_index < (((E.sections[E.symtabIdx]?).map
            (fun st => st.symbol_entries.length)).getD 0))))) = some false := by
  decide

/-- C3 witness: the amended theorem at the spec's E3 flavour — one target REL
pointing at the retained global, remapped through the merge of the
counterexample symbols. -/
theorem c3_witness :
    mergeSymbolsCode c2TgtSyms c2SrcSyms 1 [strBytes "tempfun0"]
        [strBytes "f"] 1 1 5 =
      some ([c3MergedF, c3MergedT], [none], [none, some 0, some 1]) ∧
    remapTargetRelocs [] [none] = some [] ∧
    remapSourceRelocs [c3Rel] 1 [none, some 0, some 1] = some [c3RelMapped] ∧
    ∀ x ∈ ([] : List Relocation) ++ [c3RelMapped],
      x.sym_index < [c3MergedF, c3MergedT].length := by
  have hmerge : mergeSymbolsCode c2TgtSyms c2SrcSyms 1 [strBytes "tempfun0"]
      [strBytes "f"] 1 1 5 =
      some ([c3MergedF, c3MergedT], [none], [none, some 0, some 1]) := by decide
  have h2 : remapSourceRelocs [c3Rel] 1 [none, some 0, some 1] =
      some [c3RelMapped] := by decide
  exact ⟨hmerge, rfl, h2,
    c3_remapped_in_range c2TgtSyms c2SrcSyms 1 [strBytes "tempfun0"]
      [strBytes "f"] 1 1 5 [c3MergedF, c3MergedT] [none] [none, some 0, some 1]
      hmerge [] [] [c3Rel] [c3RelMapped] rfl h2⟩

theorem count_name_append (secs : List Section) (nm : List Nat)
    (hnone : secs.findIdx? (fun s => s.name == nm) = none) :
    ((secs.map Section.name) ++ [nm]).count nm = 1 := by
  rw [List.count_append]
  have hzero : (secs.map Section.name).count nm = 0 := by
    rw [List.count_eq_zero]
    intro hmem
    obtain ⟨s, hs, hname⟩ := List.mem_map.mp hmem
    have := List.findIdx?_eq_none_iff.mp hnone s hs
    simp [hname] at this
  rw [hzero]
  simp

/-- C6: if the assembled object has a REL table targeting its `.text` and the
target has no `.rel.text`, propagation creates exactly one new section named
`.rel.text` with `sh_type = SHT_REL`, `sh_flags = 0`, `sh_entsize = 8`,
`sh_link = symtab.index`, `sh_info = text.index`, `sh_addralign = 4`, holding
the remapped relocation entries; analogously a `.rela.text` with
`sh_entsize = 12` is created for a RELA table when absent. -/
theorem c6_reltab_creation :
    (∀ (E : ElfFile) (tgtTextIdx numLocal : Nat) (srcMap : List (Option Nat))
      (r : Section) (E' : ElfFile) (rl : List Relocation),
      E.sections.findIdx? (fun s => s.name == strBytes ".rel.text") = none →
      r.sh_type = SHT_REL →
      remapSourceRelocs r.relocations numLocal srcMap = some rl →
      propagateSourceRelocs E tgtTextIdx numLocal srcMap [r] = some E' →
      (E'.sections.map Section.name).count (strBytes ".rel.text") = 1 ∧
      E'.sections.length = E.sections.length + 1 ∧
      ∃ s, E'.sections[E.sections.length]? = some s ∧ s.sh_type = SHT_REL ∧
        s.sh_flags = 0 ∧ s.sh_entsize = 8 ∧ s.sh_link = E.symtabIdx ∧
        s.sh_info = tgtTextIdx ∧ s.sh_addralign = 4 ∧
        s.name = strBytes ".rel.text" ∧
        s.data = (rl.map Relocation.to_bin).flatten) ∧
    (∀ (E : ElfFile) (tgtTextIdx numLocal : Nat) (srcMap : List (Option Nat))
      (r : Section) (E' : ElfFile) (rl : List Relocation),
      E.sections.findIdx? (fun s => s.name == strBytes ".rela.text") = none →
      r.sh_type = SHT_RELA →
      remapSourceRelocs r.relocations numLocal srcMap = some rl →
      propagateSourceRelocs E tgtTextIdx numLocal srcMap [r] = some E' →
      (E'.sections.map Section.name).count (strBytes ".rela.text") = 1 ∧
      E'.sections.length = E.sections.length + 1 ∧
      ∃ s, E'.sections[E.sections.length]? = some s ∧ s.sh_type = SHT_RELA ∧
        s.sh_flags = 0 ∧ s.sh_entsize = 12 ∧ s.sh_link = E.symtabIdx ∧
        s.sh_info = tgtTextIdx ∧ s.sh_addralign = 4 ∧
        s.name = strBytes ".rela.text" ∧
        s.data = (rl.map Relocation.to_bin).flatten) := by
  constructor
  · intro E tgtTextIdx numLocal srcMap r E' rl hnone hty hrl h
    unfold propagateSourceRelocs at h
    rw [hnone] at h
    simp only [propGo] at h
    rw [hrl] at h
    dsimp only at h
    rw [if_pos hty] at h
    split at h
    · exact absurd h (by simp)
    · rename_i E1 hadd
      obtain ⟨hnames, _, hsym, s2, hs2get, hty2, hfl2, hlk2, hinf2, hal2,
        hent2, hnm2, hdata2, hidx2⟩ := add_section_rel_spec E _ _ _ _ _ _ E1
        (Or.inl rfl) hadd
      split at h
      · exact absurd h (by simp)
      · rename_i sec hsec
        injection h with h
        subst h
        have hsecs2 : sec = s2 := Option.some.inj (hsec.symm.trans hs2get)
        subst hsecs2
        have hE1len : E1.sections.length = E.sections.length + 1 := by
          have := congrArg List.length hnames
          simpa using this
        have hlt : E.sections.length < E1.sections.length := by omega
        refine ⟨?_, by simpa using hE1len, ?_⟩
        · dsimp only
          rw [List.map_set]
          have : (E1.sections.map Section.name).set E.sections.length
              sec.name = E1.sections.map Section.name :=
            list_set_same _ _ _ (by rw [List.getElem?_map, hsec]; rfl)
          dsimp only at this ⊢
          rw [this, hnames]
          exact count_name_append E.sections _ hnone
        · refine ⟨{ sec with data := sec.data ++ (rl.map Relocation.to_bin).flatten },
            ?_, hty2, hfl2, hent2, hlk2, hinf2,
            hal2, hnm2, by rw [hdata2]; rfl⟩
          dsimp only
          rw [List.getElem?_set_self hlt]
  · intro E tgtTextIdx numLocal srcMap r E' rl hnone hty hrl h
    unfold propagateSourceRelocs at h
    rw [hnone] at h
    simp only [propGo] at h
    rw [hrl] at h
    dsimp only at h
    rw [if_neg (by rw [hty]; decide)] at h
    split at h
    · exact absurd h (by simp)
    · rename_i E1 hadd
      obtain ⟨hnames, _, hsym, s2, hs2get, hty2, hfl2, hlk2, hinf2, hal2,
        hent2, hnm2, hdata2, hidx2⟩ := add_section_rel_spec E _ _ _ _ _ _ E1
        (Or.inr rfl) hadd
      split at h
      · exact absurd h (by simp)
      · rename_i sec hsec
        injection h with h
        subst h
        have hsecs2 : sec = s2 := Option.some.inj (hsec.symm.trans hs2get)
        subst hsecs2
        have hE1len : E1.sections.length = E.sections.length + 1 := by
          have := congrArg List.length hnames
          simpa using this
        have hlt : E.sections.length < E1.sections.length := by omega
        refine ⟨?_, by simpa using hE1len, ?_⟩
        · dsimp only
          rw [List.map_set]
          have : (E1.sections.map Section.name).set E.sections.length
              sec.name = E1.sections.map Section.name :=
            list_set_same _ _ _ (by rw [List.getElem?_map, hsec]; rfl)
          dsimp only at this ⊢
          rw [this, hnames]
          exact count_name_append E.sections _ hnone
        · refine ⟨{ sec with data := sec.data ++ (rl.map Relocation.to_bin).flatten },
            ?_, hty2, hfl2, hent2, hlk2, hinf2,
            hal2, hnm2, by rw [hdata2]; rfl⟩
          dsimp only
          rw [List.getElem?_set_self hlt]

set_option maxRecDepth 100000 in
/-- Witness for C6: on the concrete target `c6E` (which has no `.rel.text` and
no `.rela.text`) and a one-entry source REL (resp. RELA) table, propagation
creates the new `.rel.text` (resp. `.rela.text`) section with the stated
metadata and the remapped entries. -/
theorem c6_witness :
    ((c6ERel.sections.map Section.name).count (strBytes ".rel.text") = 1 ∧
     c6ERel.sections.length = c6E.sections.length + 1 ∧
     ∃ s, c6ERel.sections[c6E.sections.length]? = some s ∧
       s.sh_type = SHT_REL ∧ s.sh_flags = 0 ∧ s.sh_entsize = 8 ∧
       s.sh_link = c6E.symtabIdx ∧ s.sh_info = 1 ∧ s.sh_addralign = 4 ∧
       s.name = strBytes ".rel.text" ∧
       s.data = (c6rl.map Relocation.to_bin).flatten) ∧
    ((c6ERelA.sections.map Section.name).count (strBytes ".rela.text") = 1 ∧
     c6ERelA.sections.length = c6E.sections.length + 1 ∧
     ∃ s, c6ERelA.sections[c6E.sections.length]? = some s ∧
       s.sh_type = SHT_RELA ∧ s.sh_flags = 0 ∧ s.sh_entsize = 12 ∧
       s.sh_link = c6E.symtabIdx ∧ s.sh_info = 1 ∧ s.sh_addralign = 4 ∧
       s.name = strBytes ".rela.text" ∧
       s.data = (c6rlA.map Relocation.to_bin).flatten) :=
  ⟨c6_reltab_creation.1 c6E 1 1 c6SrcMap c6Rel c6ERel c6rl (by decide) rfl
     (by decide) (by decide),
   c6_reltab_creation.2 c6E 1 1 c6SrcMap c6RelA c6ERelA c6rlA (by decide) rfl
     (by decide) (by decide)⟩

/-- C8 (counterexample): the write step is not atomic.  `write` opens the
output with `'wb'` — truncating it — before serializing, and `struct.pack`
can then raise: a model with 65536 sections (accepted by the parser via the
extended-section-count convention) fails the 2-byte `e_shnum` pack, leaving
the output file truncated to empty on a failing run. -/
theorem c8_counterexample :
    ElfFile.writeFs c8BigElf = ([], false) ∧
    (65536 : Nat) ≤ c8BigElf.sections.length := by
  have hlen : c8BigElf.sections.length = 65536 :=
    List.length_replicate 65536 c8Sec
  constructor
  · unfold ElfFile.writeFs
    dsimp only
    rw [hlen]
    rw [if_neg (by decide)]
  · rw [hlen]

/-- C8 (amended): the possible runs of `fixup_objfile` over the file-system
trace of `fixupRun`.  A failure before the temporary files exist performs no
file-system action; a failure inside the `try` block before the final write
leaves the output untouched and removes both temporaries; the final write
first truncates the output, so a failure inside the write still removes the
temporaries but leaves the output modified (truncated/partially written); the
output is written in full only when every step has succeeded. -/
theorem c8_failure_atomicity (objBytes : List Nat) (functions : List FuncDesc)
    (assemble : List (List Nat) → Option (List Nat)) :
    fixupRun objBytes functions assemble = (none, []) ∨
    fixupRun objBytes functions assemble =
      (none, [Ev.createO, Ev.createS, Ev.removeS, Ev.removeO]) ∨
    fixupRun objBytes functions assemble =
      (none, [Ev.createO, Ev.createS, Ev.truncateOutput, Ev.removeS,
        Ev.removeO]) ∨
    ∃ w, fixupRun objBytes functions assemble =
      (some w, [Ev.createO, Ev.createS, Ev.truncateOutput, Ev.writeOutput,
        Ev.removeS, Ev.removeO]) := by
  unfold fixupRun
  split
  · exact Or.inl rfl
  · split
    · exact Or.inl rfl
    · split
      · exact Or.inr (Or.inl rfl)
      · dsimp only
        split
        · exact Or.inr (Or.inr (Or.inr ⟨_, rfl⟩))
        · exact Or.inr (Or.inr (Or.inl rfl))

set_option maxRecDepth 100000 in
/-- Witness for C8: the concrete successful C3/C4 run takes the fourth shape
(truncate, then a completed write, then both temporaries removed). -/
theorem c8_witness :
    ∃ w, fixupRun c34TgtBytes c34Fns c34Oracle =
      (some w, [Ev.createO, Ev.createS, Ev.truncateOutput, Ev.writeOutput,
        Ev.removeS, Ev.removeO]) := by
  rcases c8_failure_atomicity c34TgtBytes c34Fns c34Oracle with h | h | h | h
  · exact absurd h (by decide)
  · exact absurd h (by decide)
  · exact absurd h (by decide)
  · exact h

theorem parseSourceGo_length (optimized : Bool) (lines : List (List Char)) :
    ∀ (st : PSState) (r : List (List Char) × PSState),
      parseSourceGo optimized lines st = some r →
      r.1.length = lines.length := by
  induction lines with
  | nil =>
    intro st r h
    unfold parseSourceGo at h
    injection h with h
    subst h
    rfl
  | cons l rest ih =>
    intro st r h
    unfold parseSourceGo at h
    split at h
    · exact absurd h (by simp)
    · rename_i p hp
      split at h
      · exact absurd h (by simp)
      · rename_i rr hrr
        injection h with h
        subst h
        have := ih p.1 rr hrr
        simp [this]

/-- C10 (amended): in print mode `parse_source` emits exactly one output line
per input line; a line outside a GLOBAL_ASM block is echoed after its
trailing whitespace is stripped (`raw_line.rstrip()`, not verbatim), the
`GLOBAL_ASM(` opener becomes the placeholder function header, the closing `)`
becomes the closing brace, and inside a block a glabel line, a `.` directive
or an empty processed line becomes an empty line, while each counted
instruction line becomes one placeholder statement when its count exceeds the
skip threshold and an empty line otherwise. -/
theorem c10_line_for_line (optimized : Bool) :
    (∀ (lines : List (List Char)) (out : List (List Char)) (st' : PSState),
      parseSourceGo optimized lines psInit = some (out, st') →
      out.length = lines.length) ∧
    (∀ (st : PSState) (raw : List Char) (st' : PSState) (o : List Char),
      psStep optimized st raw = some (st', o) →
      (st.in_asm = false ∧
          ¬("GLOBAL_ASM(".toList.isPrefixOf (pyLstrip (pyRstrip raw))) →
        o = pyRstrip raw) ∧
      (st.in_asm = false ∧
          "GLOBAL_ASM(".toList.isPrefixOf (pyLstrip (pyRstrip raw)) →
        o = "void ".toList ++ tempFunChars st.namectr ++ "(void) ".toList ++
          [braceOpen]) ∧
      (st.in_asm = true ∧ [')'].isPrefixOf (pyLstrip (pyRstrip raw)) →
        o = [braceClose]) ∧
      (st.in_asm = true ∧ ¬([')'].isPrefixOf (pyLstrip (pyRstrip raw))) →
        (("glabel ".toList.isPrefixOf (psLine2 raw) ∨
            ['.'].isPrefixOf (psLine2 raw) ∨ (psLine2 raw).isEmpty) →
          o = []) ∧
        (¬("glabel ".toList.isPrefixOf (psLine2 raw) ∨
            ['.'].isPrefixOf (psLine2 raw) ∨ (psLine2 raw).isEmpty) →
          ((if optimized then 1 else 4) < st.instr_count + 1 →
            o = "*(volatile int*)0 = 0;".toList) ∧
          (¬((if optimized then 1 else 4) < st.instr_count + 1) →
            o = [])))) := by
  constructor
  · intro lines out st' h
    exact parseSourceGo_length optimized lines psInit (out, st') h
  · intro st raw st' o h
    unfold psStep at h
    by_cases hin : st.in_asm = true
    · rw [if_pos hin] at h
      by_cases hpr : [')'].isPrefixOf (pyLstrip (pyRstrip raw)) = true
      · rw [if_pos hpr] at h
        split at h
        · exact absurd h (by simp)
        · split at h <;> split at h <;>
            first
              | exact Option.noConfusion h
              | exact ⟨fun hc => absurd hin (by simp [hc.1]),
                  fun hc => absurd hin (by simp [hc.1]),
                  fun _ => (congrArg Prod.snd (Option.some.inj h)).symm,
                  fun hc => absurd hpr hc.2⟩
      · rw [if_neg hpr] at h
        dsimp only at h
        split at h
        · rename_i hc1
          split at h
          · exact absurd h (by simp)
          · exact ⟨fun hc => absurd hin (by simp [hc.1]),
              fun hc => absurd hin (by simp [hc.1]),
              fun hc => absurd hc.2 hpr,
              fun _ => ⟨fun _ => (congrArg Prod.snd (Option.some.inj h)).symm,
                fun hng => absurd (Or.inl hc1.1) hng⟩⟩
        · rename_i hc1n
          split at h
          · rename_i hc2
            exact ⟨fun hc => absurd hin (by simp [hc.1]),
              fun hc => absurd hin (by simp [hc.1]),
              fun hc => absurd hc.2 hpr,
              fun _ => ⟨fun _ => (congrArg Prod.snd (Option.some.inj h)).symm,
                fun hng => absurd hc2 hng⟩⟩
          · rename_i hc2n
            split at h
            · exact absurd h (by simp)
            · split at h
              · rename_i hopt
                split at h
                · rename_i hlt
                  refine ⟨fun hc => absurd hin (by simp [hc.1]),
                    fun hc => absurd hin (by simp [hc.1]),
                    fun hc => absurd hc.2 hpr,
                    fun _ => ⟨fun hgde => absurd hgde hc2n,
                      fun _ => ⟨?_, ?_⟩⟩⟩
                  · intro _
                    exact (congrArg Prod.snd (Option.some.inj h)).symm
                  · intro hn
                    exact absurd (by rw [hopt]; simpa using hlt) hn
                · rename_i hge
                  refine ⟨fun hc => absurd hin (by simp [hc.1]),
                    fun hc => absurd hin (by simp [hc.1]),
                    fun hc => absurd hc.2 hpr,
                    fun _ => ⟨fun hgde => absurd hgde hc2n,
                      fun _ => ⟨?_, ?_⟩⟩⟩
                  · intro hl
                    rw [hopt] at hl
                    simp only [if_true] at hl
                    exact absurd hl hge
                  · intro _
                    exact (congrArg Prod.snd (Option.some.inj h)).symm
              · rename_i hopt
                have hof : optimized = false := by
                  revert hopt
                  cases optimized
                  · intro _
                    rfl
                  · intro hop
                    exact absurd rfl hop
                split at h
                · rename_i hlt
                  refine ⟨fun hc => absurd hin (by simp [hc.1]),
                    fun hc => absurd hin (by simp [hc.1]),
                    fun hc => absurd hc.2 hpr,
                    fun _ => ⟨fun hgde => absurd hgde hc2n,
                      fun _ => ⟨?_, ?_⟩⟩⟩
                  · intro _
                    exact (congrArg Prod.snd (Option.some.inj h)).symm
                  · intro hn
                    exact absurd (by rw [hof]; simpa using hlt) hn
                · rename_i hge
                  refine ⟨fun hc => absurd hin (by simp [hc.1]),
                    fun hc => absurd hin (by simp [hc.1]),
                    fun hc => absurd hc.2 hpr,
                    fun _ => ⟨fun hgde => absurd hgde hc2n,
                      fun _ => ⟨?_, ?_⟩⟩⟩
                  · intro hl
                    rw [hof] at hl
                    exact absurd (by simpa using hl) hge
                  · intro _
                    exact (congrArg Prod.snd (Option.some.inj h)).symm
    · rw [if_neg hin] at h
      by_cases hga :
          "GLOBAL_ASM(".toList.isPrefixOf (pyLstrip (pyRstrip raw)) = true
      · rw [if_pos hga] at h
        dsimp only at h
        exact ⟨fun hc => absurd hga hc.2,
          fun _ => (congrArg Prod.snd (Option.some.inj h)).symm,
          fun hc => absurd hc.1 hin,
          fun hc => absurd hc.1 hin⟩
      · rw [if_neg hga] at h
        exact ⟨fun _ => (congrArg Prod.snd (Option.some.inj h)).symm,
          fun hc => absurd hc.2 hga,
          fun hc => absurd hc.1 hin,
          fun hc => absurd hc.1 hin⟩

/-- C10 (counterexample): a line with trailing spaces outside any GLOBAL_ASM
block is not echoed verbatim — `parse_source` prints `raw_line.rstrip()`, so
`"int x;  "` comes out as `"int x;"`. -/
theorem c10_counterexample :
    parseSource false ["int x;  ".toList] =
      some (["int x;".toList], []) ∧
    "int x;".toList ≠ "int x;  ".toList := by
  decide

/-- Witness for C10: the amended theorem on a concrete three-line GLOBAL_ASM
file and on a concrete echoed step. -/
theorem c10_witness :
    ((parseSourceGo false
        ["int y;".toList, "int x;  ".toList] psInit).map
        (fun r => r.1.length) = some 2) ∧
    ((psStep false psInit "int x;  ".toList).map Prod.snd =
      some (pyRstrip "int x;  ".toList)) := by
  have h1 := (c10_line_for_line false).1
    ["int y;".toList, "int x;  ".toList]
  have h2 := (c10_line_for_line false).2 psInit "int x;  ".toList
  constructor
  · cases hgo : parseSourceGo false
      ["int y;".toList, "int x;  ".toList] psInit with
    | none => exact absurd hgo (by decide)
    | some r =>
      have := h1 r.1 r.2 (by rw [hgo])
      simp [Option.map_some, this]
  · cases hst : psStep false psInit "int x;  ".toList with
    | none => exact absurd hst (by decide)
    | some r =>
      have := (h2 r.1 r.2 (by rw [hst])).1 ⟨by decide, by decide⟩
      simp [Option.map_some, this]

/-- C2 (amended): after the merge, the new symbol list is exactly the target
symbols whose names are not placeholder temp names, in order, followed by the
source symbols after the first `sh_info` local entries, in order, where each
appended symbol has `st_name` shifted by the original target strtab length
and each appended *defined* symbol must live in the source `.text` (it is
rewritten to the target `.text` index and, if its name is a spliced
`fn_name`, marked `STT_FUNC`; an UNDEF symbol keeps its type even when its
name is a spliced `fn_name`).  Consequently no *target* symbol with a
placeholder temp name remains: any temp-named survivor is an appended source
symbol, which the merge does not filter. -/
theorem c2_symbol_merge (tgtSyms srcSyms : List Symbol) (numLocal : Nat)
    (temps fns : List (List Nat)) (sIdx tIdx adjn : Nat) (merged : List Symbol)
    (tm sm : List (Option Nat))
    (h : mergeSymbolsCode tgtSyms srcSyms numLocal temps fns sIdx tIdx adjn
         = some (merged, tm, sm)) :
    merged = tgtSyms.filter (fun s => s.name ∉ temps) ++
      (srcSyms.drop numLocal).map (claimedAdj tIdx adjn fns) ∧
    (∀ s ∈ srcSyms.drop numLocal, s.st_shndx ≠ SHN_UNDEF → s.st_shndx = sIdx) ∧
    (∀ s ∈ merged, s.name ∈ temps →
      ∃ s0 ∈ srcSyms.drop numLocal, s = claimedAdj tIdx adjn fns s0) := by
  unfold mergeSymbolsCode at h
  dsimp only at h
  split at h
  · exact absurd h (by simp)
  · rename_i rs hsrc
    injection h with h
    simp only [Prod.mk.injEq] at h
    obtain ⟨rfl, rfl, rfl⟩ := h
    obtain ⟨ht1, _, _⟩ := mergeGoTarget_spec temps tgtSyms 0
    obtain ⟨hs1, hs2, _⟩ :=
      mergeGoSource_spec sIdx tIdx adjn fns (srcSyms.drop numLocal)
        (mergeGoTarget temps tgtSyms 0).2.2 rs hsrc
    refine ⟨by rw [ht1, hs1], hs2, ?_⟩
    intro s hs htemp
    rcases List.mem_append.mp hs with hl | hr
    · rw [ht1] at hl
      have := List.of_mem_filter hl
      simp at this
      exact absurd htemp this
    · rw [hs1] at hr
      obtain ⟨s0, hs0, rfl⟩ := List.mem_map.mp hr
      exact ⟨s0, hs0, rfl⟩

/-- C2 (counterexample): with `temp_names = {"tempfun0"}`,
`fn_names = {"f"}`, a source symtab whose appended globals are an UNDEF
symbol named `f` (type 0) and an UNDEF symbol named `tempfun0`, the merged
list contains `f` with a type other than `STT_FUNC` (the code only sets
`STT_FUNC` inside the `st_shndx != SHN_UNDEF` branch) and still contains a
symbol named `tempfun0` (source symbols are never filtered by temp name). -/
theorem c2_counterexample :
    ((mergeSymbolsCode c2TgtSyms c2SrcSyms 1 [strBytes "tempfun0"]
        [strBytes "f"] 1 1 5).map (fun r =>
      decide (∃ s ∈ r.1, s.name = strBytes "f" ∧ s.type ≠ STT_FUNC) &&
      decide (∃ s ∈ r.1, s.name = strBytes "tempfun0"))) = some true := by
  decide

/-- C2 witness: the amended characterization at the counterexample's input. -/
theorem c2_witness :
    ∃ r, mergeSymbolsCode c2TgtSyms c2SrcSyms 1 [strBytes "tempfun0"]
        [strBytes "f"] 1 1 5 = some r ∧
      r.1 = c2TgtSyms.filter (fun s => s.name ∉ [strBytes "tempfun0"]) ++
        (c2SrcSyms.drop 1).map (claimedAdj 1 5 [strBytes "f"]) := by
  have h : (mergeSymbolsCode c2TgtSyms c2SrcSyms 1 [strBytes "tempfun0"]
      [strBytes "f"] 1 1 5).isSome := by decide
  refine ⟨Option.get _ h, (Option.some_get h).symm, ?_⟩
  obtain ⟨h1, _, _⟩ := c2_symbol_merge c2TgtSyms c2SrcSyms 1
    [strBytes "tempfun0"] [strBytes "f"] 1 1 5 (Option.get _ h).1
    (Option.get _ h).2.1 (Option.get _ h).2.2 (Option.some_get h).symm
  exact h1

/-- C9 witness: the amended theorem at a concrete table and string. -/
theorem c9_witness :
    ∃ sec', Section.add_str c9Sec [65, 66] = some (1, sec') ∧
      sec'.data = [0] ++ [65, 66] ++ [0] ∧
      sec'.lookup_str 1 = some [65, 66] ∧
      ∀ extra, Section.lookup_str { sec' with data := sec'.data ++ extra } 1
        = some [65, 66] :=
  c9_add_str_lookup_str c9Sec [65, 66] (by decide) (by decide)

end AsmProc
